import Mathlib

/-!
Verification development for the race-program PDF parsing pipeline
(`app/modules/scraping/extractors/{base,hch,chs,vsc}.py`).

The extractors are shallowly embedded over `List String` (the ordered,
non-empty text lines produced by the external PDF-to-text collaborator;
`_extract_text_lines` itself is out of scope per the spec).  Python strings
are modelled as `String` / `List Char`; each regular expression of the
source is hand-compiled to an executable matcher that is faithful to
Python `re` semantics (leftmost search, greedy/lazy quantifiers,
`IGNORECASE` over the character repertoire occurring in these documents:
ASCII plus `á é í ó ú ñ`, their upper-case forms, `º ª °`).  Fallible
Python operations are modelled with `Option`; `None` is `none`.
-/

/-- Python whitespace characters (`str.strip`, regex `\s`) restricted to the
ASCII whitespace repertoire occurring in the documents. -/
def pyWs (c : Char) : Bool :=
  c = ' ' || c = '\t' || c = '\n' || c = '\r' || c = '\x0b' || c = '\x0c'

/-- ASCII decimal digit (regex `\d`, `str.isdigit` over this repertoire). -/
def pyDigit (c : Char) : Bool :=
  '0' ≤ c && c ≤ '9'

/-- ASCII letter. -/
def asciiLetter (c : Char) : Bool :=
  ('a' ≤ c && c ≤ 'z') || ('A' ≤ c && c ≤ 'Z')

/-- Lower-casing as Python `str.lower`, covering ASCII and the accented
letters used by the dialect patterns. -/
def pyLowerChar (c : Char) : Char :=
  if 'A' ≤ c && c ≤ 'Z' then Char.ofNat (c.toNat + 32)
  else if c = 'Á' then 'á'
  else if c = 'É' then 'é'
  else if c = 'Í' then 'í'
  else if c = 'Ó' then 'ó'
  else if c = 'Ú' then 'ú'
  else if c = 'Ñ' then 'ñ'
  else c

/-- Upper-casing as Python `str.upper` over the same repertoire. -/
def pyUpperChar (c : Char) : Char :=
  if 'a' ≤ c && c ≤ 'z' then Char.ofNat (c.toNat - 32)
  else if c = 'á' then 'Á'
  else if c = 'é' then 'É'
  else if c = 'í' then 'Í'
  else if c = 'ó' then 'Ó'
  else if c = 'ú' then 'Ú'
  else if c = 'ñ' then 'Ñ'
  else c

/-- Regex `\w` (Unicode word character) over the document repertoire:
ASCII alphanumerics, underscore, accented Spanish letters and `º ª`. -/
def pyWordChar (c : Char) : Bool :=
  asciiLetter c || pyDigit c || c = '_' ||
  c = 'á' || c = 'é' || c = 'í' || c = 'ó' || c = 'ú' || c = 'ñ' ||
  c = 'Á' || c = 'É' || c = 'Í' || c = 'Ó' || c = 'Ú' || c = 'Ñ' ||
  c = 'º' || c = 'ª'

/-- Case-insensitive character comparison (Python `re.IGNORECASE`). -/
def ciEq (a b : Char) : Bool :=
  pyLowerChar a = pyLowerChar b

/-- Case-insensitive literal prefix: if `pat` matches a prefix of `s`
(ignoring case), return the rest of `s`. -/
def ciDrop : List Char → List Char → Option (List Char)
  | [], s => some s
  | _ :: _, [] => none
  | p :: ps, c :: cs => if ciEq p c then ciDrop ps cs else none

/-- `str.strip()` from the left. -/
def pyStripL (s : List Char) : List Char :=
  s.dropWhile (fun c => pyWs c)

/-- `str.strip()` from the right. -/
def pyStripR (s : List Char) : List Char :=
  (s.reverse.dropWhile (fun c => pyWs c)).reverse

/-- Python `str.strip()`. -/
def pyStrip (s : List Char) : List Char :=
  pyStripR (pyStripL s)

/-- Python `str.strip(chars)` from the left for an explicit character set. -/
def pyStripCharsL (cs : List Char) (s : List Char) : List Char :=
  s.dropWhile (fun c => cs.contains c)

/-- Python `str.strip(chars)`. -/
def pyStripChars (cs : List Char) (s : List Char) : List Char :=
  ((pyStripCharsL cs s).reverse.dropWhile (fun c => cs.contains c)).reverse

/-- Python `str.rstrip(chars)`. -/
def pyRStripChars (cs : List Char) (s : List Char) : List Char :=
  (s.reverse.dropWhile (fun c => cs.contains c)).reverse

/-- Python `sub in s` (substring containment). -/
def pySub (sub : List Char) : List Char → Bool
  | [] => sub.isEmpty
  | s@(_ :: rest) => sub.isPrefixOf s || pySub sub rest

/-- Python nonempty-all-digits test (`str.isdigit` over this repertoire). -/
def pyIsDigit (s : List Char) : Bool :=
  !s.isEmpty && s.all (fun c => pyDigit c)

/-- Numeric value of a digit string. -/
def digitsToNat (s : List Char) : Nat :=
  s.foldl (fun acc c => acc * 10 + (c.toNat - 48)) 0

/-- `_to_int`: strip every non-digit and parse, `None` when no digit at all
(`int(re.sub(r"[^\d]", "", s)) if re.search(r"\d", s) else None`). -/
def pyToInt (s : List Char) : Option Nat :=
  let ds := s.filter (fun c => pyDigit c)
  if ds.isEmpty then none else some (digitsToNat ds)

/-- Python `str(x)` for an `Optional[int]`: `None` prints as `"None"`. -/
def pyStrOfOptNat : Option Nat → String
  | none => "None"
  | some n => toString n

/-- Python `s.split(sep, 1)` for a nonempty separator: text before the first
occurrence and text after it (whole string when absent). -/
def pySplitOnce (sep : List Char) : List Char → List Char × List Char
  | [] => ([], [])
  | s@(c :: rest) =>
    if !sep.isEmpty && sep.isPrefixOf s then ([], s.drop sep.length)
    else
      let (a, b) := pySplitOnce sep rest
      (c :: a, b)

/-- Worker of `pyReplace`, structurally recursive on a fuel that bounds the
remaining length (each step consumes at least one character). -/
def pyReplaceGo (old new : List Char) : Nat → List Char → List Char
  | 0, s => s
  | _ + 1, [] => []
  | fuel + 1, c :: rest =>
    if !old.isEmpty && old.isPrefixOf (c :: rest) then
      new ++ pyReplaceGo old new fuel ((c :: rest).drop old.length)
    else
      c :: pyReplaceGo old new fuel rest

/-- Python `s.replace(old, new)` for a nonempty `old`: every non-overlapping
occurrence, left to right. -/
def pyReplace (old new s : List Char) : List Char :=
  pyReplaceGo old new s.length s

/-- `re.split("[;,]", s)`: split on every `;` or `,`, keeping empty pieces. -/
def pySplitSemicolonComma (s : List Char) : List String :=
  let p := s.foldr
    (fun c (acc : List Char × List String) =>
      if c = ';' || c = ',' then ([], String.mk acc.1 :: acc.2)
      else (c :: acc.1, acc.2))
    ([], [])
  String.mk p.1 :: p.2

/-- Worker for `pySplitWs2`: `cur` holds the current piece reversed; the
fuel bounds the remaining length. -/
def splitWs2Go : Nat → List Char → List Char → List (List Char)
  | 0, _, cur => [cur.reverse]
  | _ + 1, [], cur => [cur.reverse]
  | fuel + 1, c :: rest, cur =>
    if pyWs c then
      let run := rest.takeWhile (fun d => pyWs d)
      if run.isEmpty then splitWs2Go fuel rest (c :: cur)
      else cur.reverse :: splitWs2Go fuel (rest.drop run.length) []
    else splitWs2Go fuel rest (c :: cur)

/-- `re.split(r"\s{2,}", s)`: split on every maximal whitespace run of
length at least 2 (single whitespace stays inside a piece). -/
def pySplitWs2 (s : List Char) : List (List Char) :=
  splitWs2Go s.length s []

/-! ### Generic search combinators (Python `re.search` leftmost semantics) -/

/-- Try a matcher at every position left to right, returning the first hit. -/
def searchOpt {α : Type} (m : List Char → Option α) : List Char → Option α
  | [] => m []
  | c :: rest => (m (c :: rest)) <|> searchOpt m rest

/-- Like `searchOpt` but the matcher also sees the previous character, for
word-boundary (`\b`) tests. -/
def searchPrev {α : Type} (m : Option Char → List Char → Option α) :
    Option Char → List Char → Option α
  | prev, [] => m prev []
  | prev, c :: rest => (m prev (c :: rest)) <|> searchPrev m (some c) rest

/-- Like `searchOpt` but returns the 0-based index of the first position at
which the boundary-aware Boolean matcher succeeds (`m.start()`). -/
def searchIdx (m : Option Char → List Char → Bool) :
    Nat → Option Char → List Char → Option Nat
  | i, prev, [] => if m prev [] then some i else none
  | i, prev, c :: rest =>
    if m prev (c :: rest) then some i else searchIdx m (i + 1) (some c) rest

/-! ### Stepwise pattern pieces, threading (consumed count, rest) -/

/-- Consume a case-insensitive literal. -/
def stepCi (lit : String) (st : Nat × List Char) : Option (Nat × List Char) :=
  (ciDrop lit.data st.2).map (fun r => (st.1 + lit.data.length, r))

/-- Consume `\s+` (at least one whitespace, maximal run). -/
def stepWsPlus (st : Nat × List Char) : Option (Nat × List Char) :=
  let run := st.2.takeWhile (fun c => pyWs c)
  if run.isEmpty then none else some (st.1 + run.length, st.2.drop run.length)

/-- Consume `\s*` (maximal run, possibly empty). -/
def stepWsStar (st : Nat × List Char) : Nat × List Char :=
  let run := st.2.takeWhile (fun c => pyWs c)
  (st.1 + run.length, st.2.drop run.length)

/-- Consume `\d{1,2}` when the next pattern element cannot match a digit:
the whole maximal digit run must have length 1 or 2.  Returns the digits. -/
def stepDigits12 (st : Nat × List Char) : Option (List Char × Nat × List Char) :=
  let run := st.2.takeWhile (fun c => pyDigit c)
  if run.length = 1 || run.length = 2 then
    some (run, st.1 + run.length, st.2.drop run.length)
  else none

/-- Consume `\d{n}` exactly (maximal-run prefix of length `n` required to
exist; trailing digits stay in the rest). -/
def stepDigitsExact (n : Nat) (st : Nat × List Char) :
    Option (List Char × Nat × List Char) :=
  let run := st.2.takeWhile (fun c => pyDigit c)
  if n ≤ run.length then some (run.take n, st.1 + n, st.2.drop n) else none

/-- Consume `\w+` (maximal, at least one), returning the word. -/
def stepWordPlus (st : Nat × List Char) : Option (List Char × Nat × List Char) :=
  let run := st.2.takeWhile (fun c => pyWordChar c)
  if run.isEmpty then none else some (run, st.1 + run.length, st.2.drop run.length)

/-- Consume an optional literal character (`X?`, greedy). -/
def stepOptChar (x : Char) (st : Nat × List Char) : Nat × List Char :=
  match st.2 with
  | c :: rest => if c = x then (st.1 + 1, rest) else st
  | [] => st

/-- Consume one character from a set. -/
def stepCharIn (xs : List Char) (st : Nat × List Char) : Option (Nat × List Char) :=
  match st.2 with
  | c :: rest => if xs.contains c then some (st.1 + 1, rest) else none
  | [] => none

/-- Consume one character case-insensitively equal to `x`. -/
def stepCharCi (x : Char) (st : Nat × List Char) : Option (Nat × List Char) :=
  match st.2 with
  | c :: rest => if ciEq x c then some (st.1 + 1, rest) else none
  | [] => none

/-- First alternative of an ordered case-insensitive alternation matching a
prefix, as Python tries alternatives left to right. -/
def stepAlt (alts : List String) (st : Nat × List Char) :
    Option (Nat × Nat × List Char) :=
  match alts with
  | [] => none
  | a :: rest =>
    match ciDrop a.data st.2 with
    | some r => some (a.data.length, st.1 + a.data.length, r)
    | none => stepAlt rest st

/-! ### The dialect regexes, hand-compiled -/

/-- Weekday alternation of `R_DATE` (HCH and CHS share it). -/
def weekdayAlts : List String :=
  ["Lunes", "Martes", "Miércoles", "Miercoles", "Jueves", "Viernes",
   "Sábado", "Sabado", "Domingo"]

/-- `HCHScraper.R_DATE` tried at one position: `{WEEKDAYS}\s+\d{1,2}\s+de\s+\w+\s+de\s+\d{4}`,
IGNORECASE.  Returns the number of characters of `group(0)`. -/
def hchDateMatchAt (s : List Char) : Option Nat := do
  let (_, st1) ← stepAlt weekdayAlts (0, s)
  let st2 ← stepWsPlus st1
  let (_, st3) ← stepDigits12 st2
  let st4 ← stepWsPlus st3
  let st5 ← stepCi "de" st4
  let st6 ← stepWsPlus st5
  let (_, st7) ← stepWordPlus st6
  let st8 ← stepWsPlus st7
  let st9 ← stepCi "de" st8
  let st10 ← stepWsPlus st9
  let (_, n, _) ← stepDigitsExact 4 st10
  pure n

/-- `R_DATE.search` for HCH, returning `group(0)`. -/
def hchDateSearch (s : List Char) : Option (List Char) :=
  searchOpt (fun t => (hchDateMatchAt t).map (fun n => t.take n)) s

/-- `CHSScraper.R_DATE` (no `de` connectors) tried at one position. -/
def chsDateMatchAt (s : List Char) : Option Nat := do
  let (_, st1) ← stepAlt weekdayAlts (0, s)
  let st2 ← stepWsPlus st1
  let (_, st3) ← stepDigits12 st2
  let st4 ← stepWsPlus st3
  let (_, st5) ← stepWordPlus st4
  let st6 ← stepWsPlus st5
  let (_, n, _) ← stepDigitsExact 4 st6
  pure n

/-- `R_DATE.search` for CHS, returning `group(0)`. -/
def chsDateSearch (s : List Char) : Option (List Char) :=
  searchOpt (fun t => (chsDateMatchAt t).map (fun n => t.take n)) s

/-- `R_REUNION = REUNION\s*N[ºo]\s*(\d+)` (IGNORECASE) at one position,
returning `group(1)`.  Note the class `[ºo]` accepts `º`, `o`, `O` but not
the degree sign `°`. -/
def hchReunionMatchAt (s : List Char) : Option (List Char) := do
  let st1 ← stepCi "REUNION" (0, s)
  let st2 := stepWsStar st1
  let st3 ← stepCharCi 'N' st2
  let st4 ← stepCharIn ['º', 'o', 'O'] st3
  let st5 := stepWsStar st4
  let run := st5.2.takeWhile (fun c => pyDigit c)
  if run.isEmpty then none else pure run

/-- `R_REUNION.search`, returning `group(1)`. -/
def hchReunionSearch (s : List Char) : Option (List Char) :=
  searchOpt hchReunionMatchAt s

/-- `CHSScraper.R_REUNION = RN\s*(\d+)` (IGNORECASE) search, `group(1)`. -/
def chsReunionSearch (s : List Char) : Option (List Char) :=
  searchOpt
    (fun t => do
      let st1 ← stepCi "RN" (0, t)
      let st2 := stepWsStar st1
      let run := st2.2.takeWhile (fun c => pyDigit c)
      if run.isEmpty then none else pure run)
    s

/-- Character class `[\d\.\s]` of the race-header `dist` group. -/
def distClass (c : Char) : Bool :=
  pyDigit c || c = '.' || pyWs c

/-- Character class `[\d\.,]` of the `codigo` group. -/
def codigoClass (c : Char) : Bool :=
  pyDigit c || c = '.' || c = ','

/-- `HCHScraper.R_RACE_HEADER` tried at one position:
`(?P<hora>\d{1,2}:\d{2})\s*aprox\.?\s*(?P<dist>[\d\.\s]+)\s*Mts\.?\s*\((?P<codigo>[\d\.,]+)\)\s*(?P<resto>.+)`
(IGNORECASE), returning the four named groups. -/
def hchRaceHeaderMatchAt (s : List Char) :
    Option (List Char × List Char × List Char × List Char) := do
  let (h1, st1) ← stepDigits12 (0, s)
  let st2 ← stepCharIn [':'] st1
  let (h2, st3) ← stepDigitsExact 2 st2
  let st4 := stepWsStar st3
  let st5 ← stepCi "aprox" st4
  let st6 := stepOptChar '.' st5
  let st7 := stepWsStar st6
  let dist := st7.2.takeWhile (fun c => distClass c)
  if dist.isEmpty then none
  else
    let st8 : Nat × List Char := (st7.1 + dist.length, st7.2.drop dist.length)
    let st9 ← stepCi "Mts" st8
    let st10 := stepOptChar '.' st9
    let st11 := stepWsStar st10
    let st12 ← stepCharIn ['('] st11
    let cod := st12.2.takeWhile (fun c => codigoClass c)
    if cod.isEmpty then none
    else
      let st13 : Nat × List Char := (st12.1 + cod.length, st12.2.drop cod.length)
      let st14 ← stepCharIn [')'] st13
      let st15 := stepWsStar st14
      let resto := st15.2.takeWhile (fun c => c ≠ '\n')
      if resto.isEmpty then none
      else pure (h1 ++ ':' :: h2, dist, cod, resto)

/-- `R_RACE_HEADER.search` on a line (HCH and VSC). -/
def hchRaceHeaderSearch (s : List Char) :
    Option (List Char × List Char × List Char × List Char) :=
  searchOpt hchRaceHeaderMatchAt s

/-- `R_PESO = Peso:\s*(\d{2,3})\s*Kilos` (IGNORECASE) search, `group(1)`. -/
def hchPesoSearch (s : List Char) : Option (List Char) :=
  searchOpt
    (fun t => do
      let st1 ← stepCi "Peso:" (0, t)
      let st2 := stepWsStar st1
      let run := st2.2.takeWhile (fun c => pyDigit c)
      if run.length = 2 || run.length = 3 then
        let st3 : Nat × List Char := (st2.1 + run.length, st2.2.drop run.length)
        let st4 := stepWsStar st3
        let _ ← stepCi "Kilos" st4
        pure run
      else none)
    s

/-- `R_APUESTAS = APUESTAS\s+DISP(?:ONIBLES)?\s*[:\-]\s*(.+)` (IGNORECASE)
search, returning `group(1)` (the rest of the line). -/
def hchApuestasSearch (s : List Char) : Option (List Char) :=
  searchOpt
    (fun t => do
      let st1 ← stepCi "APUESTAS" (0, t)
      let st2 ← stepWsPlus st1
      let st3 ← stepCi "DISP" st2
      let st4 := match stepCi "ONIBLES" st3 with
        | some st => st
        | none => st3
      let st5 := stepWsStar st4
      let st6 ← stepCharIn [':', '-'] st5
      let st7 := stepWsStar st6
      let g := st7.2.takeWhile (fun c => c ≠ '\n')
      if g.isEmpty then none else pure g)
    s

/-- `R_PREMIO_NOMBRE = PREMIO\s*[:\-]\s*(.+)` (IGNORECASE) search,
`group(1)`. -/
def hchPremioNombreSearch (s : List Char) : Option (List Char) :=
  searchOpt
    (fun t => do
      let st1 ← stepCi "PREMIO" (0, t)
      let st2 := stepWsStar st1
      let st3 ← stepCharIn [':', '-'] st2
      let st4 := stepWsStar st3
      let g := st4.2.takeWhile (fun c => c ≠ '\n')
      if g.isEmpty then none else pure g)
    s

/-- One `.*?\$([\d\.,]+)` step of `R_PREMIOS_ANY` (DOTALL): lazily scan to
the next `$` that is followed by at least one amount character. -/
def scanDollar : List Char → Option (List Char × List Char)
  | [] => none
  | c :: rest =>
    if c = '$' then
      let run := rest.takeWhile (fun d => codigoClass d)
      if run.isEmpty then scanDollar rest
      else some (run, rest.drop run.length)
    else scanDollar rest

/-- `R_PREMIOS_ANY = PREMIOS\s*[:\-].*?\$(…)` ×4 (IGNORECASE, DOTALL)
search, returning the four amount groups. -/
def hchPremiosAnySearch (s : List Char) :
    Option (List Char × List Char × List Char × List Char) :=
  searchOpt
    (fun t => do
      let st1 ← stepCi "PREMIOS" (0, t)
      let st2 := stepWsStar st1
      let st3 ← stepCharIn [':', '-'] st2
      let (g1, r1) ← scanDollar st3.2
      let (g2, r2) ← scanDollar r1
      let (g3, r3) ← scanDollar r2
      let (g4, _) ← scanDollar r3
      pure (g1, g2, g3, g4))
    s

/-- `R_OPCION_LABEL = O[pc]ci[óo]n` (IGNORECASE) search; returns the text
after the end of the match (`line[m.end():]`). -/
def hchOpcionLabelSearch (s : List Char) : Option (List Char) :=
  searchOpt
    (fun t => do
      let st1 ← stepCharCi 'O' (0, t)
      let st2 ← stepCharIn ['p', 'P', 'c', 'C'] st1
      let st3 ← stepCharCi 'c' st2
      let st4 ← stepCharCi 'i' st3
      let st5 ← stepCharIn ['ó', 'Ó', 'o', 'O'] st4
      let st6 ← stepCharCi 'n' st5
      pure st6.2)
    s

/-- Worker of `digitRunsToNats` over a length-bounding fuel. -/
def digitRunsGo : Nat → List Char → List Nat
  | 0, _ => []
  | _ + 1, [] => []
  | fuel + 1, c :: rest =>
    if pyDigit c then
      let run := rest.takeWhile (fun d => pyDigit d)
      digitsToNat (c :: run) :: digitRunsGo fuel (rest.drop run.length)
    else digitRunsGo fuel rest

/-- `re.findall(r"\d+", s)` as numbers (`[int(t) for t in …]`). -/
def digitRunsToNats (s : List Char) : List Nat :=
  digitRunsGo s.length s

/-- `re.split(r"\bPeso:", resto, IGNORECASE)[0]`: the text before the first
word-boundary-preceded `Peso:`, the whole string when absent. -/
def hchPesoSplitHead (s : List Char) : List Char :=
  match searchIdx
      (fun prev t =>
        (match prev with
         | none => true
         | some p => !pyWordChar p) &&
        (ciDrop "Peso:".data t).isSome)
      0 none s with
  | some i => s.take i
  | none => s

/-- `re.split(r"\bPREMIOS?\b", s, 1)[0]` generalised: text before the first
occurrence of the (case-sensitive) word `w` delimited by `\b` on both
sides; used with `PREMIO` and `PREMIOS`. -/
def splitWordHead (w : String) (s : List Char) : List Char :=
  match searchIdx
      (fun prev t =>
        (match prev with
         | none => true
         | some p => !pyWordChar p) &&
        w.data.isPrefixOf t &&
        (match (t.drop w.data.length).head? with
         | none => true
         | some c => !pyWordChar c))
      0 none s with
  | some i => s.take i
  | none => s

/-- Leading race-type alternation
`^(HANDICAP|CLASICO CONDICIONAL|CLASICO|CONDICIONAL)` (IGNORECASE),
returning the length of the matched token (Python tries alternatives in
this order). -/
def hchTipoMatch (s : List Char) : Option Nat :=
  (stepAlt ["HANDICAP", "CLASICO CONDICIONAL", "CLASICO", "CONDICIONAL"]
    (0, s)).map (fun r => r.1)

/-- Suffix alternation of the series ordinal, in source order. -/
def serieOrdSuffixes : List String :=
  ["ta", "da", "ra", "to", "do", "ro", "ma", "a"]

/-- `\b(\d+)(?:ta|da|ra|to|do|ro|ma|a)\.?\s*Serie` (IGNORECASE) search,
returning `(group(0), group(1))`. -/
def hchSerieOrdinalSearch (s : List Char) : Option (List Char × List Char) :=
  searchPrev
    (fun prev t => do
      let ok : Bool := match prev with
        | none => true
        | some p => !pyWordChar p
      if !ok then none
      else
        let run := t.takeWhile (fun c => pyDigit c)
        if run.isEmpty then none
        else do
          let st0 : Nat × List Char := (run.length, t.drop run.length)
          let (_, st1) ← stepAlt serieOrdSuffixes st0
          let st2 := stepOptChar '.' st1
          let st3 := stepWsStar st2
          let st4 ← stepCi "Serie" st3
          pure (t.take st4.1, run))
    none s

/-- `\b(Serie\s+Indice.*|Serie\s+[A-Z0-9]+.*)` (IGNORECASE): both branches
start with `Serie\s+` followed by an ASCII-alphanumeric character, so the
search reduces to that test; returns `m.start()`. -/
def hchSeriePlainStart (s : List Char) : Option Nat :=
  searchIdx
    (fun prev t =>
      (match prev with
       | none => true
       | some p => !pyWordChar p) &&
      (match stepCi "Serie" (0, t) with
       | some st1 =>
         match stepWsPlus st1 with
         | some st2 =>
           match st2.2.head? with
           | some c => asciiLetter c || pyDigit c
           | none => false
         | none => false
       | none => false))
    0 none s

/-- `\b(SERIE[- ]?[A-Z0-9]+)\b` (IGNORECASE) search, returning `group(1)`. -/
def hchSerieCodeSearch (s : List Char) : Option (List Char) :=
  searchPrev
    (fun prev t => do
      let ok : Bool := match prev with
        | none => true
        | some p => !pyWordChar p
      if !ok then none
      else do
        let st1 ← stepCi "SERIE" (0, t)
        let st2 := match st1.2 with
          | c :: rest => if c = '-' || c = ' ' then (st1.1 + 1, rest) else st1
          | [] => st1
        let run := st2.2.takeWhile (fun c => asciiLetter c || pyDigit c)
        if run.isEmpty then none
        else
          let after := st2.2.drop run.length
          let bOk : Bool := match after.head? with
            | none => true
            | some c => !pyWordChar c
          if bOk then pure (t.take (st2.1 + run.length)) else none)
    none s

/-- `Indice:\s*([^\n]+?)(?=\s*$)` (IGNORECASE) search on a newline-free
string, returning `(group(0), group(1))`: the group runs to the last
non-whitespace character; when only whitespace follows the label the lazy
group degenerates to the final whitespace character. -/
def hchIndiceSearch (s : List Char) : Option (List Char × List Char) :=
  searchOpt
    (fun t => do
      let st1 ← stepCi "Indice:" (0, t)
      if st1.2.isEmpty then none
      else
        let core := pyStripL st1.2
        if core.isEmpty then some (t, [st1.2.getLastD ' '])
        else some (pyStripR t, pyStripR core))
    s

/-- `_is_participant_start`, second branch:
`re.match(r"^\d{1,2}\s+.+\s+-\s+", line)`.  After the 1–2 leading digits
the remainder `r` must start with whitespace and contain a `-` at some
index `k ≥ 3` with whitespace on both sides (`\s+` then at least one `.+`
character then `\s+-\s+`). -/
def hchStartRegex (l : List Char) : Bool :=
  let run := l.takeWhile (fun c => pyDigit c)
  (run.length = 1 || run.length = 2) &&
  (let r := l.drop run.length
   match r.head? with
   | none => false
   | some c0 =>
     pyWs c0 &&
     (List.range r.length).any (fun k =>
       decide (3 ≤ k) && decide (k + 1 < r.length) &&
       r.getD k ' ' = '-' && pyWs (r.getD (k - 1) ' ') &&
       pyWs (r.getD (k + 1) ' ')))

/-- `re.match(r"^(\d{1,2})\s+(.+)", line)`: groups (number, rest).  When
everything after the whitespace run is empty the greedy `\s+` backs off one
character so that `(.+)` can take it. -/
def hchNumNameMatch (l : List Char) : Option (List Char × List Char) :=
  let run := l.takeWhile (fun c => pyDigit c)
  if run.length = 1 || run.length = 2 then
    let r := l.drop run.length
    let ws := r.takeWhile (fun c => pyWs c)
    if ws.isEmpty then none
    else
      let rest := r.drop ws.length
      if rest.isEmpty then
        if 2 ≤ ws.length then some (run, [ws.getLastD ' ']) else none
      else some (run, rest)
  else none

/-- Letter class `[A-Za-zÁÉÍÓÚÑ]` of `_extract_numeric_sequence`. -/
def seqLetter (c : Char) : Bool :=
  asciiLetter c || c = 'Á' || c = 'É' || c = 'Í' || c = 'Ó' || c = 'Ú' || c = 'Ñ'

/-- `re.match(r"^[\d\-\s\*]+-(.+)", s)`: the greedy class run backtracks to
the last `-` inside it that still leaves at least one character for the
final group; returns `group(1)`. -/
def hchPerfMatch (s : List Char) : Option (List Char) :=
  let cls := fun c => pyDigit c || c = '-' || pyWs c || c = '*'
  let m := s.takeWhile cls
  let ks := (List.range m.length).filter (fun k =>
    decide (1 ≤ k) && m.getD k ' ' = '-' && decide (k + 1 < s.length))
  match ks.getLast? with
  | some k => some (s.drop (k + 1))
  | none => none

/-- `re.match(r"^[\d\s\-\.]+$", s)`: nonempty and wholly inside the class. -/
def hchAllNumLine (s : List Char) : Bool :=
  !s.isEmpty && s.all (fun c => pyDigit c || pyWs c || c = '-' || c = '.')

/-! ### CHS dialect regexes -/

/-- `CHSScraper.R_RACE_HEADER = (?P<hora>\d{1,2}:\d{2})\s*APROX\.`
(IGNORECASE) search, returning `hora`. -/
def chsRaceHeaderSearch (s : List Char) : Option (List Char) :=
  searchOpt
    (fun t => do
      let (h1, st1) ← stepDigits12 (0, t)
      let st2 ← stepCharIn [':'] st1
      let (h2, st3) ← stepDigitsExact 2 st2
      let st4 := stepWsStar st3
      let st5 ← stepCi "APROX" st4
      let _ ← stepCharIn ['.'] st5
      pure (h1 ++ ':' :: h2))
    s

/-- `CHSScraper.R_RACE_DETAILS = ^\s*(?P<nro>\d+)\s+(?P<dist>\d+)(?P<resto>.+)`:
greedy `dist` gives back one digit when `resto` would otherwise be empty. -/
def chsRaceDetailsMatch (l : List Char) : Option (List Char × List Char × List Char) :=
  let l1 := l.dropWhile (fun c => pyWs c)
  let nro := l1.takeWhile (fun c => pyDigit c)
  if nro.isEmpty then none
  else
    let r := l1.drop nro.length
    let ws := r.takeWhile (fun c => pyWs c)
    if ws.isEmpty then none
    else
      let r2 := r.drop ws.length
      let dist := r2.takeWhile (fun c => pyDigit c)
      if dist.isEmpty then none
      else
        let resto := r2.drop dist.length
        if resto.isEmpty then
          if 2 ≤ dist.length then some (nro, dist.dropLast, [dist.getLastD '0'])
          else none
        else some (nro, dist, resto)

/-- `re.search(r"OPC:\s*([\d\-\s]+)", header_line)` (case-sensitive):
`group(1)` is the maximal class run after the label minus the whitespace
taken by `\s*`; degenerates to the final whitespace character when the run
is whitespace only. -/
def chsOpcSearch (s : List Char) : Option (List Char) :=
  searchOpt
    (fun t =>
      if "OPC:".data.isPrefixOf t then
        let r := t.drop 4
        let run := r.takeWhile (fun c => pyDigit c || c = '-' || pyWs c)
        if run.isEmpty then none
        else
          let core := run.dropWhile (fun c => pyWs c)
          if core.isEmpty then some [run.getLastD ' '] else some core
      else none)
    s

/-- Python `s.split("-")`: split on every `-`, keeping empty pieces. -/
def pySplitDash (s : List Char) : List (List Char) :=
  let p := s.foldr
    (fun c (acc : List Char × List (List Char)) =>
      if c = '-' then ([], acc.1 :: acc.2)
      else (c :: acc.1, acc.2))
    ([], [])
  p.1 :: p.2

/-- Worker of `parenFindAll` over a length-bounding fuel. -/
def parenFindGo : Nat → List Char → List (List Char)
  | 0, _ => []
  | _ + 1, [] => []
  | fuel + 1, c :: rest =>
    if c = '(' then
      let run := rest.takeWhile (fun d => codigoClass d)
      if !run.isEmpty && (rest.drop run.length).head? = some ')' then
        run :: parenFindGo fuel (rest.drop (run.length + 1))
      else parenFindGo fuel rest
    else parenFindGo fuel rest

/-- `re.findall(r"\(([\d\.,]+)\)", s)`: the group of every non-overlapping
parenthesised amount, left to right. -/
def parenFindAll (s : List Char) : List (List Char) :=
  parenFindGo s.length s

/-- Scan for the least `e ≥ 1` with `\s*\(` at offset `e` of the lazy-group
body (worker of `chsPremioSearch`). -/
def chsPremioLazy : List Char → Nat → Option Nat
  | [], _ => none
  | c :: rest, e =>
    if (List.dropWhile (fun d => pyWs d) (c :: rest)).head? = some '(' then some e
    else chsPremioLazy rest (e + 1)

/-- `re.search(r"Pr\.\s+(.+?)\s*\(", header_line, IGNORECASE)`: lazy group
up to the first position where (after optional whitespace) a `(` follows;
returns `group(1)`. -/
def chsPremioSearch (s : List Char) : Option (List Char) :=
  searchOpt
    (fun t => do
      let st1 ← stepCi "Pr." (0, t)
      let st2 ← stepWsPlus st1
      let body := st2.2
      (chsPremioLazy body.tail 1).map (fun e => body.take e))
    s

/-- Scan of `(.+?)\s+(\d{2,3})` (worker of `chsPartStartMatch`): least
`u ≥ 1` such that at offset `u` a whitespace run is followed by at least two
digits; returns `(u, the 2–3 digit group)`. -/
def chsG3Scan : List Char → Nat → Option (Nat × List Char)
  | [], _ => none
  | c :: rest, u =>
    let ws := (c :: rest).takeWhile (fun d => pyWs d)
    let keep :=
      if ws.isEmpty then none
      else
        let ds := ((c :: rest).drop ws.length).takeWhile (fun d => pyDigit d)
        if 2 ≤ ds.length then some (u, ds.take 3) else none
    keep <|> chsG3Scan rest (u + 1)

/-- Backtracking over the greedy `\s+` after the dash of
`CHSScraper.R_PARTICIPANT_START` (worker): try consuming `a` whitespace
characters, largest first. -/
def chsAfterDash (afterDash : List Char) : Nat → Option (List Char × List Char)
  | 0 => none
  | a + 1 =>
    let g3start := afterDash.drop (a + 1)
    match chsG3Scan g3start.tail 1 with
    | some (u, g4) => some (g3start.take u, g4)
    | none => chsAfterDash afterDash a

/-- Scan of `(.+?)\s+-\s+` (worker of `chsPartStartMatch`): least `t ≥ 1`
where a maximal whitespace run is followed by `-` and whitespace, and the
tail of the pattern succeeds; returns `(g2, g3, g4)`. -/
def chsDashScan (body : List Char) : List Char → Nat → Option (List Char × List Char × List Char)
  | [], _ => none
  | c :: rest, t =>
    let here := do
      let ws := (c :: rest).takeWhile (fun d => pyWs d)
      if ws.isEmpty then none
      else
        let afterWs := (c :: rest).drop ws.length
        match afterWs with
        | '-' :: afterDash =>
          let wsd := afterDash.takeWhile (fun d => pyWs d)
          if wsd.isEmpty then none
          else
            (chsAfterDash afterDash wsd.length).map
              (fun (g3, g4) => (body.take t, g3, g4))
        | _ => none
    here <|> chsDashScan body rest (t + 1)

/-- `CHSScraper.R_PARTICIPANT_START.match` =
`^\s*(\d{1,2})\s+(.+?)\s+-\s+(.+?)\s+(\d{2,3})` (IGNORECASE): groups
`(nro, g2, g3, g4)`. -/
def chsPartStartMatch (l : List Char) :
    Option (List Char × List Char × List Char × List Char) :=
  let l1 := l.dropWhile (fun c => pyWs c)
  let run := l1.takeWhile (fun c => pyDigit c)
  if run.length = 1 || run.length = 2 then
    let r := l1.drop run.length
    let ws := r.takeWhile (fun c => pyWs c)
    if ws.isEmpty then none
    else
      let body := r.drop ws.length
      (chsDashScan body body.tail 1).map (fun (g2, g3, g4) => (run, g2, g3, g4))
  else none

/-! ### Data model -/

/-- Modelled from the spec: the `Participant` record
`{ number, name, jockey, weightKg, trainer, stud : string }` constructed by
the extractors (`pdf_models.py` under `src/` holds only the cloud-path
LlamaExtract models and defines no `Participant`); missing components
default to the empty string. -/
structure Participant where
  numero : String := ""
  nombre : String := ""
  jinete : String := ""
  peso : String := ""
  preparador : String := ""
  stud : String := ""
deriving Repr, DecidableEq

/-- Modelled from the spec: the `Race` record of §3/§6 as constructed by the
extractors; `premios` is the placement-to-amount mapping in insertion order,
`opcion` the option-number sequence; missing components default to empty
string / empty mapping / empty sequence. -/
structure Race where
  nro_carrera : String := ""
  hora : String := ""
  distancia_m : String := ""
  codigo : String := ""
  tipo : String := ""
  condicion : String := ""
  serie : String := ""
  indice : String := ""
  peso_categoria_kg : String := ""
  apuestas : List String := []
  premio_nombre : String := ""
  premios : List (String × String) := []
  opcion : List Nat := []
  participantes : List Participant := []
deriving Repr, DecidableEq

/-- Modelled from the spec: the `Meeting` record of §3/§6 as constructed by
the extractors; `fecha` is `None` (no date found) or an ISO string, and
`nro_reunion` is whatever Python `str(...)` produced. -/
structure Meeting where
  nro_reunion : String
  fecha : Option String
  recinto : String
  carreras : List Race
deriving Repr, DecidableEq

/-! ### Shared helpers of the HCH pipeline -/

/-- `str.strip()` on a `String`. -/
def strStrip (s : String) : String :=
  String.mk (pyStrip s.data)

/-- Zero-padded decimal of width 2 (Python `f"{n:02d}"` for `n < 100`). -/
def pad2 (n : Nat) : String :=
  if n < 10 then "0" ++ toString n else toString n

/-- Zero-padded decimal of width 4 (Python `f"{n:04d}"` for `n < 10000`). -/
def pad4 (n : Nat) : String :=
  if n < 10 then "000" ++ toString n
  else if n < 100 then "00" ++ toString n
  else if n < 1000 then "0" ++ toString n
  else toString n

/-- The fixed month-name table `meses` of `_parse_fecha_to_iso`; HCH and CHS
each define this identical 12-entry literal. -/
def mesesTable : List (String × Nat) :=
  [("enero", 1), ("febrero", 2), ("marzo", 3), ("abril", 4), ("mayo", 5),
   ("junio", 6), ("julio", 7), ("agosto", 8), ("septiembre", 9),
   ("octubre", 10), ("noviembre", 11), ("diciembre", 12)]

/-- Inner pattern of `HCHScraper._parse_fecha_to_iso`:
`(\d{1,2})\s+de\s+(\w+)\s+de\s+(\d{4})` (IGNORECASE) search, the three
groups. -/
def hchInnerDateSearch (s : List Char) :
    Option (List Char × List Char × List Char) :=
  searchOpt
    (fun t => do
      let (d, st1) ← stepDigits12 (0, t)
      let st2 ← stepWsPlus st1
      let st3 ← stepCi "de" st2
      let st4 ← stepWsPlus st3
      let (m, st5) ← stepWordPlus st4
      let st6 ← stepWsPlus st5
      let st7 ← stepCi "de" st6
      let st8 ← stepWsPlus st7
      let (y, _, _) ← stepDigitsExact 4 st8
      pure (d, m, y))
    s

/-- Inner pattern of `CHSScraper._parse_fecha_to_iso`:
`(\d{1,2})\s+(\w+)\s+(\d{4})` (IGNORECASE) search. -/
def chsInnerDateSearch (s : List Char) :
    Option (List Char × List Char × List Char) :=
  searchOpt
    (fun t => do
      let (d, st1) ← stepDigits12 (0, t)
      let st2 ← stepWsPlus st1
      let (m, st3) ← stepWordPlus st2
      let st4 ← stepWsPlus st3
      let (y, _, _) ← stepDigitsExact 4 st4
      pure (d, m, y))
    s

/-- `HCHScraper._parse_fecha_to_iso`: convert recognised date text to
ISO-8601 through `mesesTable`, failing closed. -/
def hchParseFechaToIso (fechaText : String) : Option String :=
  if fechaText.data.isEmpty then none
  else
    match hchInnerDateSearch fechaText.data with
    | some (d, m, y) =>
      match List.lookup (String.mk (m.map pyLowerChar)) mesesTable with
      | some mes =>
        some (pad4 (digitsToNat y) ++ "-" ++ pad2 mes ++ "-" ++ pad2 (digitsToNat d))
      | none => none
    | none => none

/-- `CHSScraper._parse_fecha_to_iso`: try the parent (HCH) conversion first,
then the `de`-less CHS pattern, again through the same 12-entry table. -/
def chsParseFechaToIso (fechaText : String) : Option String :=
  if fechaText.data.isEmpty then none
  else
    match hchParseFechaToIso fechaText with
    | some iso => some iso
    | none =>
      match chsInnerDateSearch fechaText.data with
      | some (d, m, y) =>
        match List.lookup (String.mk (m.map pyLowerChar)) mesesTable with
        | some mes =>
          some (pad4 (digitsToNat y) ++ "-" ++ pad2 mes ++ "-" ++ pad2 (digitsToNat d))
        | none => none
      | none => none

/-- `APUESTA_NORMALIZATION`, the fixed bet-type abbreviation table. -/
def apuestaNorm : List (String × String) :=
  [("GDOR", "Ganador"), ("GANADOR", "Ganador"),
   ("A 2°", "A Segundo"), ("A 2º", "A Segundo"), ("A SEGUNDO", "A Segundo"),
   ("A 3°", "A Tercero"), ("A 3º", "A Tercero"), ("A TERCERO", "A Tercero"),
   ("QLA", "Quinela"), ("QUINELA", "Quinela"),
   ("QLA-PLA", "Quinela-Place"), ("QUINELA-PLACE", "Quinela-Place"),
   ("EXAC", "Exacta"), ("EXACTA", "Exacta"),
   ("TRIF", "Trifecta"), ("TRIFECTA", "Trifecta"),
   ("SUP", "Superfecta"), ("SUPERFECTA", "Superfecta")]

/-- `_normalize_apuesta`: `None` for an empty token, otherwise
`token.strip().replace("º", "°").upper()` looked up in the table, unknown
tokens passing through cleaned. -/
def pyNormalizeApuesta (token : String) : Option String :=
  if token.data.isEmpty then none
  else
    let cleaned := String.mk
      (((pyStrip token.data).map (fun c => if c = 'º' then '°' else c)).map
        (fun c => pyUpperChar c))
    match List.lookup cleaned apuestaNorm with
    | some v => some v
    | none => some cleaned

/-- `_extract_apuestas`: split `group(1)` before any word `PREMIO`, split on
`;`/`,` and keep the truthy normalisations in order. -/
def hchExtractApuestas (metaText : List Char) : List String :=
  match hchApuestasSearch metaText with
  | none => []
  | some g1 =>
    let txt := splitWordHead "PREMIO" g1
    (pySplitSemicolonComma txt).foldr
      (fun p acc =>
        match pyNormalizeApuesta p with
        | some a => if a ≠ "" then a :: acc else acc
        | none => acc)
      []

/-- `_extract_opcion`: first metadata line carrying the `Opción` label gives
up to 4 integers from the text after the label; `[]` otherwise. -/
def hchExtractOpcion : List String → List Nat
  | [] => []
  | line :: rest =>
    match hchOpcionLabelSearch line.data with
    | some after => (digitRunsToNats after).take 4
    | none => hchExtractOpcion rest

/-- `HCHScraper._is_participant_start(lines, idx)` depends only on the line
and its successor: a bare number (≤ 30) whose next line contains `" - "`,
or a line matching the start regex. -/
def hchIsPartStartPair (line : String) (next : Option String) : Bool :=
  let l := pyStrip line.data
  if pyIsDigit l then
    if 30 < digitsToNat l then false
    else
      match next with
      | some nx => pySub " - ".data nx.data
      | none => false
  else hchStartRegex l

/-- `_gather_participant_chunks`: start lines flush the current chunk and
open a new one; every other line is appended to the current chunk (lines
before the first start line therefore form a leading chunk of their own).
`cur` is the current chunk reversed. -/
def gatherGo (isStart : String → Option String → Bool) :
    List String → List String → List (List String)
  | [], cur => if cur.isEmpty then [] else [cur.reverse]
  | l :: rest, cur =>
    if isStart l rest.head? then
      if cur.isEmpty then gatherGo isStart rest [l]
      else cur.reverse :: gatherGo isStart rest [l]
    else gatherGo isStart rest (l :: cur)

/-- `_gather_participant_chunks(lines)` for a given start predicate. -/
def gatherChunks (isStart : String → Option String → Bool)
    (lines : List String) : List (List String) :=
  gatherGo isStart lines []

/-- The metadata scan of `_parse_race_block`: collect lines after the header
until the first participant start, returning (metadata lines, participant
section). -/
def splitMetaGo (isStart : String → Option String → Bool) :
    List String → List String × List String
  | [] => ([], [])
  | l :: rest =>
    if isStart l rest.head? then ([], l :: rest)
    else
      let (m, p) := splitMetaGo isStart rest
      (l :: m, p)

/-- `_extract_numeric_sequence` worker: walk the remaining chunk lines from
absolute index `idx`, accumulating `\d+` tokens, stopping at a line with a
letter of `seqLetter` or once three numbers are collected. -/
def hchNumericSeqGo : List String → Nat → List Nat → List Nat × Nat
  | [], idx, numbers => (numbers, idx)
  | l :: rest, idx, numbers =>
    let line := pyStrip (l.data.map (fun c => if c = '\t' then ' ' else c))
    if line.isEmpty then hchNumericSeqGo rest (idx + 1) numbers
    else if line.any (fun c => seqLetter c) then (numbers, idx)
    else
      let toks := digitRunsToNats line
      if toks.isEmpty then hchNumericSeqGo rest (idx + 1) numbers
      else
        let numbers2 := numbers ++ toks
        if 3 ≤ numbers2.length then (numbers2, idx + 1)
        else hchNumericSeqGo rest (idx + 1) numbers2

/-- `_extract_numeric_sequence(chunk, start_idx)`. -/
def hchNumericSeq (chunk : List String) (startIdx : Nat) : List Nat × Nat :=
  hchNumericSeqGo (chunk.drop startIdx) startIdx []

/-- Columnar-branch predicate on a `≥ 2-space` column: a hyphen-bearing,
non-digit-initial token longer than 5 characters holds jockey-trainer. -/
def hchJpColumn (p : List Char) : Bool :=
  pySub "-".data p &&
  (match p.head? with
   | some c => !pyDigit c
   | none => false) &&
  decide (5 < p.length)

/-- `HCHScraper._parse_participant_chunk`, fallback (multi-line) branch. -/
def hchChunkFallback (chunk : List String) (line0 : List Char) : Option Participant :=
  let step : Option (List Char × List Char × Nat) :=
    if pyIsDigit line0 then
      match chunk with
      | _ :: l1 :: _ => some (line0, pyStrip l1.data, 2)
      | _ => none
    else
      match hchNumNameMatch line0 with
      | some (g1, g2) => some (g1, pyStrip g2, 1)
      | none => none
  match step with
  | none => none
  | some (nro, nombreLine, idx0) =>
    let caballo :=
      if pySub " - ".data nombreLine then pyStrip (pySplitOnce " - ".data nombreLine).1
      else nombreLine
    let (numbers, idxp) := hchNumericSeq chunk idx0
    let peso := match numbers.head? with
      | some n => toString n
      | none => ""
    let (jinete, preparador, stud) :=
      if idxp < chunk.length then
        let jpLine := pyStrip (chunk.getD idxp "").data
        let (j, p) :=
          if pySub "-".data jpLine then
            let parts := pySplitOnce "-".data jpLine
            (pyStrip parts.1, pyRStripChars ['.'] (pyStrip parts.2))
          else (jpLine, [])
        let st :=
          if idxp + 1 < chunk.length then
            let cand := pyStrip (chunk.getD (idxp + 1) "").data
            match hchPerfMatch cand with
            | some g => pyStrip g
            | none => if !hchAllNumLine cand then cand else []
          else []
        (j, p, st)
      else ([], [], [])
    some
      { numero := String.mk nro
        nombre := String.mk caballo
        jinete := String.mk jinete
        peso := peso
        preparador := String.mk preparador
        stud := String.mk stud }

/-- `HCHScraper._parse_participant_chunk`: columnar branch when the first
line has a 3-space run and splits into ≥ 6 columns with a numeric first
column, otherwise the multi-line fallback. -/
def hchParseParticipantChunk (chunk : List String) : Option Participant :=
  match chunk with
  | [] => none
  | l0 :: _ =>
    let line0 := pyStrip l0.data
    if pySub "   ".data line0 then
      let parts := pySplitWs2 line0
      if 6 ≤ parts.length && pyIsDigit (parts.getD 0 []) then
        let nro := parts.getD 0 []
        let nombre := (pySplitOnce " - ".data (parts.getD 1 [])).1
        let peso := parts.getD 2 []
        let (jinete, preparador) :=
          match (parts.drop 3).find? (fun p => hchJpColumn p) with
          | some p =>
            let jp := pySplitOnce "-".data p
            (pyStrip jp.1, pyRStripChars ['.'] (pyStrip jp.2))
          | none => ([], [])
        let stud := (pySplitOnce " - ".data (parts.getLastD [])).1
        some
          { numero := String.mk nro
            nombre := String.mk nombre
            jinete := String.mk jinete
            peso := String.mk peso
            preparador := String.mk preparador
            stud := String.mk stud }
      else hchChunkFallback chunk line0
    else hchChunkFallback chunk line0

/-! ### `_parse_race_block` (HCH): header-remainder reduction -/

/-- `resto` after `resto.strip()` and the `\bPeso:` split
(`re.split(r"\bPeso:", resto, IGNORECASE)[0].strip()`). -/
def hchRestoBase (resto : List Char) : List Char :=
  pyStrip (hchPesoSplitHead (pyStrip resto))

/-- The extracted race type: matched leading token upper-cased, else `""`. -/
def hchTipoOf (resto : List Char) : List Char :=
  match hchTipoMatch (hchRestoBase resto) with
  | some n => ((hchRestoBase resto).take n).map (fun c => pyUpperChar c)
  | none => []

/-- The remainder after stripping the leading race-type token. -/
def hchTipoRest (resto : List Char) : List Char :=
  let r1 := hchRestoBase resto
  match hchTipoMatch r1 with
  | some n => pyStrip (r1.drop n)
  | none => r1

/-- The `serie` field: ordinal digits retained only for HANDICAP. -/
def hchSerieOf (resto : List Char) : List Char :=
  match hchSerieOrdinalSearch (hchTipoRest resto) with
  | some (_, g1) => if hchTipoOf resto = "HANDICAP".data then g1 else []
  | none => []

/-- The remainder after the serie step: ordinal text removed everywhere
(`resto.replace(serie_full_text, "").strip()`), else the plain-`Serie`
truncation, else the `SERIE-code` removal, else unchanged. -/
def hchAfterSerie (resto : List Char) : List Char :=
  let tr := hchTipoRest resto
  match hchSerieOrdinalSearch tr with
  | some (g0, _) => pyStrip (pyReplace (pyStrip g0) [] tr)
  | none =>
    match hchSeriePlainStart tr with
    | some i => pyStrip (tr.take i)
    | none =>
      match hchSerieCodeSearch tr with
      | some g1 => pyStripChars [' ', '.'] (pyReplace g1 [] tr)
      | none => tr

/-- The `indice` field (HANDICAP only). -/
def hchIndiceOf (resto : List Char) : List Char :=
  if hchTipoOf resto = "HANDICAP".data then
    match hchIndiceSearch (hchAfterSerie resto) with
    | some (_, g1) => pyStrip g1
    | none => []
  else []

/-- The free-text condition: what remains after type, serie and (for
HANDICAP) indice removal. -/
def hchCondicionOf (resto : List Char) : List Char :=
  if hchTipoOf resto = "HANDICAP".data then
    match hchIndiceSearch (hchAfterSerie resto) with
    | some (g0, _) => pyStrip (pyReplace g0 [] (hchAfterSerie resto))
    | none => hchAfterSerie resto
  else hchAfterSerie resto

/-- The defensive header scan of `_parse_race_block`: first index `< 5`
whose line matches `R_RACE_HEADER`. -/
def hchFindHdrIdx (blockLines : List String) : Option Nat :=
  (List.range (min 5 blockLines.length)).find?
    (fun i => (hchRaceHeaderSearch (blockLines.getD i "").data).isSome)

/-- `HCHScraper._parse_race_block`. -/
def hchParseRaceBlock (blockLines : List String) : Option Race :=
  match hchFindHdrIdx blockLines with
  | none => none
  | some i =>
    let headerLine := blockLines.getD i ""
    match hchRaceHeaderSearch headerLine.data with
    | none => none
    | some (hora, dist, cod, resto) =>
      let pre := blockLines.take i
      let (metaLines, partsSection) :=
        splitMetaGo hchIsPartStartPair (blockLines.drop (i + 1))
      let allMeta := pre ++ [headerLine] ++ metaLines
      let metaText := (String.intercalate " " allMeta).data
      let pesoM := hchPesoSearch metaText
      let premioNomM := hchPremioNombreSearch metaText
      let premiosM := hchPremiosAnySearch metaText
      let participants :=
        (gatherChunks hchIsPartStartPair partsSection).filterMap
          (fun chunk => hchParseParticipantChunk chunk)
      some
        { nro_carrera := ""
          hora := String.mk hora
          distancia_m := pyStrOfOptNat (pyToInt dist)
          codigo := String.mk (pyReplace ['.'] [] cod)
          tipo := String.mk (hchTipoOf resto)
          condicion := String.mk (hchCondicionOf resto)
          serie := String.mk (hchSerieOf resto)
          indice := String.mk (hchIndiceOf resto)
          peso_categoria_kg :=
            match pesoM with
            | some g => pyStrOfOptNat (pyToInt g)
            | none => ""
          apuestas := hchExtractApuestas metaText
          premio_nombre :=
            match premioNomM with
            | some g1 =>
              String.mk (pyStripChars [' ', '-', ':']
                (splitWordHead "PREMIOS" (pyStrip g1)))
            | none => ""
          premios :=
            match premiosM with
            | some (g1, g2, g3, g4) =>
              [("1o", pyStrOfOptNat (pyToInt g1)),
               ("2o", pyStrOfOptNat (pyToInt g2)),
               ("3o", pyStrOfOptNat (pyToInt g3)),
               ("4o", pyStrOfOptNat (pyToInt g4))]
            | none => []
          opcion := hchExtractOpcion allMeta
          participantes := participants }

/-! ### Meeting-level assembly (HCH) -/

/-- `_find_meeting_markers`: every line with an `R_DATE` hit, else the
synthetic `(0, None)` marker. -/
def hchFindMeetingMarkers (lines : List String) : List (Nat × Option String) :=
  let ms := (List.range lines.length).filterMap
    (fun i => (hchDateSearch (lines.getD i "").data).map
      (fun g0 => (i, some (String.mk g0))))
  if ms.isEmpty then [(0, none)] else ms

/-- `_parse_header`: search the joined window for the reunion number and the
date, converting the latter (first component may be `None`, printed later
by `str`). -/
def hchParseHeader (lines : List String) (startIdx endIdx : Nat) :
    Option Nat × Option String :=
  let subset := (lines.drop startIdx).take (endIdx - startIdx)
  let text := String.intercalate "\n" subset
  ((hchReunionSearch text.data).bind (fun g1 => pyToInt g1),
   (hchDateSearch text.data).bind (fun g0 => hchParseFechaToIso (String.mk g0)))

/-- `_split_races` boundary list: every line index matching
`R_RACE_HEADER`, in document order. -/
def hchHdrIdxs (lines : List String) : List Nat :=
  (List.range lines.length).filter
    (fun i => (hchRaceHeaderSearch (lines.getD i "").data).isSome)

/-- The half-open blocks between consecutive boundaries, the last one
running to the end of the document. -/
def blocksOfIdxs (lines : List String) : List Nat → List (Nat × List String)
  | [] => []
  | [s] => [(s, lines.drop s)]
  | s :: s2 :: rest =>
    (s, (lines.drop s).take (s2 - s)) :: blocksOfIdxs lines (s2 :: rest)

/-- `HCHScraper._split_races`: optional leading block (lines before the
first boundary, when that boundary is positive) followed by the boundary
blocks. -/
def hchSplitRaces (lines : List String) : List (Nat × List String) :=
  let idxs := hchHdrIdxs lines
  match idxs.head? with
  | some s =>
    if 0 < s then (0, lines.take s) :: blocksOfIdxs lines idxs
    else blocksOfIdxs lines idxs
  | none => []

/-- Python string `<` (lexicographic by code point). -/
def lexLe : List Char → List Char → Bool
  | [], _ => true
  | _ :: _, [] => false
  | a :: as, b :: bs => if a < b then true else if b < a then false else lexLe as bs

/-- Sort key comparison of `carreras.sort(key=lambda x: x.hora)`. -/
def horaLe (a b : Race) : Bool :=
  lexLe a.hora.data b.hora.data

/-- Stable insertion of a later race after every earlier race with a
`hora` that is `≤` its own. -/
def insRace (x : Race) : List Race → List Race
  | [] => [x]
  | y :: ys => if horaLe y x then y :: insRace x ys else x :: y :: ys

/-- `carreras.sort(key=lambda x: x.hora)`: Python `list.sort` is stable, and
left-to-right stable insertion is the unique stable sort for the key. -/
def sortRaces (l : List Race) : List Race :=
  l.foldl (fun acc x => insRace x acc) []

/-- The final renumbering `race.nro_carrera = str(idx + 1)`. -/
def renumberRaces (k : Nat) : List Race → List Race
  | [] => []
  | r :: rest => { r with nro_carrera := toString k } :: renumberRaces (k + 1) rest

/-- The block loop of `extract_meeting`: blocks starting inside
`[0, end_line)` either contribute a parsed race or, on header failure, their
participant chunks as candidate leading participants (the last nonempty
assignment wins, matching the Python overwrite). -/
def hchBlocksLoop (endLine : Nat) :
    List (Nat × List String) → List Race × List Participant
  | [] => ([], [])
  | (s, blk) :: rest =>
    let (rs, ps) := hchBlocksLoop endLine rest
    if s < endLine then
      match hchParseRaceBlock blk with
      | some r => (r :: rs, ps)
      | none =>
        let parts :=
          (gatherChunks hchIsPartStartPair blk).filterMap
            (fun chunk => hchParseParticipantChunk chunk)
        (rs, if ps.isEmpty then (if parts.isEmpty then ps else parts) else ps)
    else (rs, ps)

/-- The post-sort attachment
`if race_1_participants and carreras: carreras[0].participantes = …`. -/
def hchAttachLeading (race1 : List Participant) (sorted : List Race) : List Race :=
  match race1, sorted with
  | _ :: _, c :: cs => { c with participantes := race1 } :: cs
  | _, s => s

/-- `end_line`: the second marker's line index when present, else the
document length. -/
def hchEndLine (lines : List String) : Nat :=
  match hchFindMeetingMarkers lines with
  | _ :: m1 :: _ => m1.1
  | _ => lines.length

/-- `HCHScraper.extract_meeting` over the extracted text lines (the
`_extract_text_lines` PDF step is the external Line Source collaborator).
`startLine - 100` is the Python `max(0, start_line - 100)` via truncated
`Nat` subtraction. -/
def hchExtractMeeting (lines : List String) : Meeting :=
  let markers := hchFindMeetingMarkers lines
  let startLine := (markers.headD (0, none)).1
  let hs := startLine - 100
  let he := min lines.length (hchEndLine lines + 50)
  let header := hchParseHeader lines hs he
  let res := hchBlocksLoop (hchEndLine lines) (hchSplitRaces lines)
  { nro_reunion := pyStrOfOptNat header.1
    fecha := header.2
    recinto := "HCH"
    carreras := renumberRaces 1 (hchAttachLeading res.2 (sortRaces res.1)) }

/-! ### CHS dialect -/

/-- `CHSScraper._is_participant_start`: a plain regex match on the line. -/
def chsIsStartLine (l : String) : Bool :=
  (chsPartStartMatch l.data).isSome

/-- `CHSScraper._parse_participant_chunk`: number, name and weight from the
start regex on the stripped first line; jockey and trainer from the first
later line containing `" - "` that does not begin with a digit.  No stud is
ever extracted. -/
def chsParseParticipantChunk (chunk : List String) : Option Participant :=
  match chunk with
  | [] => none
  | l0 :: rest =>
    match chsPartStartMatch (pyStrip l0.data) with
    | none => none
    | some (nro, g2, _, g4) =>
      let (jinete, preparador) :=
        match rest.find?
            (fun line =>
              pySub " - ".data line.data &&
              (match line.data.head? with
               | some c => !pyDigit c
               | none => false)) with
        | some line =>
          let p := pySplitOnce " - ".data line.data
          (pyStrip p.1, pyStrip p.2)
        | none => ([], [])
      some
        { numero := String.mk nro
          nombre := String.mk (pyStrip g2)
          jinete := String.mk jinete
          peso := String.mk g4
          preparador := String.mk preparador }

/-- The participant scan of `CHSScraper._parse_race_block`: skip lines from
index 2 until the first participant start. -/
def chsSkipToStart : List String → List String
  | [] => []
  | l :: rest => if chsIsStartLine l then l :: rest else chsSkipToStart rest

/-- `CHSScraper._parse_race_block`. -/
def chsParseRaceBlock (blockLines : List String) : Option Race :=
  match blockLines with
  | [] => none
  | headerLine :: _ =>
    match chsRaceHeaderSearch headerLine.data with
    | none => none
    | some hora =>
      let opcion :=
        match chsOpcSearch headerLine.data with
        | some g1 =>
          (pySplitDash (pyStrip g1)).filterMap
            (fun x =>
              let xs := pyStrip x
              if pyIsDigit xs then some (digitsToNat xs) else none)
        | none => []
      let details :=
        match blockLines.drop 1 with
        | line2 :: _ => chsRaceDetailsMatch line2.data
        | [] => none
      let codigo :=
        match (parenFindAll headerLine.data).getLast? with
        | some g => String.mk (pyReplace ['.'] [] g)
        | none => ""
      let up := headerLine.data.map (fun c => pyUpperChar c)
      let tipo :=
        if pySub "HANDICAP".data up then "HANDICAP"
        else if pySub "CONDICIONAL".data up then "CONDICIONAL"
        else if pySub "CLASICO".data up then "CLASICO"
        else ""
      let premioNombre :=
        match chsPremioSearch headerLine.data with
        | some g1 => String.mk (pyStrip g1)
        | none => ""
      let partsSection := chsSkipToStart (blockLines.drop 2)
      let participants :=
        (gatherChunks (fun l _ => chsIsStartLine l) partsSection).filterMap
          (fun chunk => chsParseParticipantChunk chunk)
      some
        { nro_carrera :=
            match details with
            | some (nro, _, _) => String.mk nro
            | none => ""
          hora := String.mk hora
          distancia_m :=
            match details with
            | some (_, dist, _) => String.mk dist
            | none => ""
          codigo := codigo
          tipo := tipo
          condicion :=
            match details with
            | some (_, _, resto) => String.mk (pyStrip resto)
            | none => ""
          serie := ""
          indice := ""
          peso_categoria_kg := ""
          apuestas := []
          premio_nombre := premioNombre
          premios := []
          opcion := opcion
          participantes := participants }

/-! ### VSC dialect: race segmentation with `Opción` lookback -/

/-- Does the line at index `p` carry the `Opción` label? -/
def vscOpcAt (lines : List String) (p : Nat) : Bool :=
  (hchOpcionLabelSearch (lines.getD p "").data).isSome

/-- The boundary adjustment of `VSCScraper._split_races`: walk up to 3 lines
backward from a detected header to absorb a preceding `Opción` label line
(nearest such line wins; offsets that would go below index 0 are skipped). -/
def vscAdjust (lines : List String) (i : Nat) : Nat :=
  if 1 ≤ i && vscOpcAt lines (i - 1) then i - 1
  else if 2 ≤ i && vscOpcAt lines (i - 2) then i - 2
  else if 3 ≤ i && vscOpcAt lines (i - 3) then i - 3
  else i

/-- The VSC boundary list: one adjusted boundary per `R_RACE_HEADER` match. -/
def vscIdxs (lines : List String) : List Nat :=
  (hchHdrIdxs lines).map (fun i => vscAdjust lines i)

/-- `VSCScraper._split_races`. -/
def vscSplitRaces (lines : List String) : List (Nat × List String) :=
  let idxs := vscIdxs lines
  match idxs.head? with
  | some s =>
    if 0 < s then (0, lines.take s) :: blocksOfIdxs lines idxs
    else blocksOfIdxs lines idxs
  | none => []

/-! ### Claim theorems -/

set_option maxRecDepth 100000

/-- C1: the parser is total — here witnessed at the structurally absent
document — but the code renders the absent meeting number as the string
`"None"` (`str(None)` of the always-present dictionary entry), not as a
null/empty field: `extract_meeting` on zero lines yields the synthetic
marker, an empty header window, no races, `fecha = None` and
`nro_reunion = "None"`. -/
theorem c1_empty_doc_result :
    hchExtractMeeting [] =
      { nro_reunion := "None", fecha := none, recinto := "HCH", carreras := [] } := by
  rfl

/-- The literal 8-line scenario of the spec (claim C5). -/
def c5ScenarioLines : List String :=
  ["Viernes 21 de Noviembre de 2025", "REUNION N° 12",
   "14:30 aprox. 1200 Mts. (123.456) HANDICAP 2da. Serie Peso: 56 Kilos",
   "APUESTAS DISPONIBLES: GDOR; QLA",
   "PREMIO: Clasico Otoño PREMIOS: $100.000 $50.000 $25.000 $10.000",
   "1 ALAZAN - Thunder 56", "A. Perez - J. Gomez", "Stud Andes"]

/-- C5 counterexample: on the literal scenario the meeting number is the
string `"None"` — the scenario's `N°` uses the degree sign, which the
`[ºo]` class of `R_REUNION` does not accept — and the single participant's
weight is the empty string, not `"56"` (the weight `56` sits on the name
line after the sire, where neither the name split nor the numeric-sequence
scan of the following lines picks it up). -/
theorem c5_scenario_counterexample :
    (hchExtractMeeting c5ScenarioLines).nro_reunion = "None" ∧
    (hchExtractMeeting c5ScenarioLines).nro_reunion ≠ "12" ∧
    ((hchExtractMeeting c5ScenarioLines).carreras.map
      (fun r => r.participantes.map (fun p => p.peso))) = [[""]] := by
  refine ⟨rfl, by decide, rfl⟩

/-- C5 amended: the literal scenario yields date `2025-11-21`, meeting
number `"None"`, and exactly one race with type `HANDICAP`, series `2`,
weight category `56`, bet types `Ganador`/`Quinela`, prize
`Clasico Otoño` with amounts `100000`/`50000`/`25000`/`10000`, and one
participant `1 ALAZAN`, jockey `A. Perez`, trainer `J. Gomez` — with
weight `""` (not recovered) and stud `Stud Andes`. -/
theorem c5_scenario_amended :
    hchExtractMeeting c5ScenarioLines =
      { nro_reunion := "None"
        fecha := some "2025-11-21"
        recinto := "HCH"
        carreras :=
          [{ nro_carrera := "1"
             hora := "14:30"
             distancia_m := "1200"
             codigo := "123456"
             tipo := "HANDICAP"
             condicion := ""
             serie := "2"
             indice := ""
             peso_categoria_kg := "56"
             apuestas := ["Ganador", "Quinela"]
             premio_nombre := "Clasico Otoño"
             premios := [("1o", "100000"), ("2o", "50000"),
                         ("3o", "25000"), ("4o", "10000")]
             opcion := []
             participantes :=
               [{ numero := "1", nombre := "ALAZAN", jinete := "A. Perez",
                  peso := "", preparador := "J. Gomez", stud := "Stud Andes" }] }] } := by
  decide

/-- Modelled from the spec: the value of a `"H:MM"`/`"HH:MM"` time string
*as a time of day*, in minutes — the order the C3 claim asserts. -/
def specTimeOfDayMinutes (hora : String) : Nat :=
  let p := pySplitOnce [':'] hora.data
  digitsToNat p.1 * 60 + digitsToNat p.2

/-- Two-race document whose times have different hour widths (claim C3). -/
def c3CounterLines : List String :=
  ["9:00 aprox. 1000 Mts. (1) A", "10:00 aprox. 1000 Mts. (2) B"]

/-- C3 counterexample: `carreras.sort(key=…x.hora)` compares the time
*strings* lexicographically, so `"10:00"` sorts before `"9:00"`: race
number `"1"` gets the block whose time of day (600 min) is *later* than
race `"2"`'s (540 min) — the races are not ordered by time of day. -/
theorem c3_lex_not_time_counterexample :
    ((hchExtractMeeting c3CounterLines).carreras.map
      (fun r => (r.nro_carrera, r.hora))) = [("1", "10:00"), ("2", "9:00")] ∧
    specTimeOfDayMinutes "9:00" < specTimeOfDayMinutes "10:00" := by
  exact ⟨rfl, by decide⟩

/-- HCH block whose `Opción` line carries exactly two numbers (claim C4). -/
def c4HchBlock : List String :=
  ["14:30 aprox. 1000 Mts. (1) X", "Opcion 5 7"]

/-- CHS block whose `OPC:` label carries five numbers (claim C4). -/
def c4ChsBlock : List String :=
  ["12:30 APROX. OPC: 1-2-3-4-5"]

/-- C4 counterexample: the HCH dialect produces a race whose option-number
sequence has length 2 — neither 0 nor 4. -/
theorem c4_opcion_length_counterexample :
    ((hchParseRaceBlock c4HchBlock).map (fun r => r.opcion)) = some [5, 7] ∧
    ¬(([5, 7] : List Nat).length = 0 ∨ ([5, 7] : List Nat).length = 4) := by
  exact ⟨rfl, by decide⟩

/-- `_extract_opcion` caps its result at 4 via `[:4]`. -/
theorem hchExtractOpcion_length_le :
    ∀ metaLines : List String, (hchExtractOpcion metaLines).length ≤ 4 := by
  intro metaLines
  induction metaLines with
  | nil => simp [hchExtractOpcion]
  | cons line rest ih =>
    simp only [hchExtractOpcion]
    cases hchOpcionLabelSearch line.data with
    | none => exact ih
    | some after =>
      simp [List.length_take]

/-- C4 amended: the HCH (hence VSC) dialect's option-number sequence always
has length at most 4 — lengths 1–3 included — while the CHS dialect's
`OPC:` parser applies no cap at all and here produces 5 entries. -/
theorem c4_opcion_length_amended :
    (∀ metaLines : List String, (hchExtractOpcion metaLines).length ≤ 4) ∧
    ((chsParseRaceBlock c4ChsBlock).map (fun r => r.opcion)) = some [1, 2, 3, 4, 5] := by
  exact ⟨hchExtractOpcion_length_le, rfl⟩

/-- C10: the CHS participant-chunk parser never extracts a stud — every
participant it returns carries the empty default. -/
theorem c10_chs_stud_always_empty :
    ∀ chunk p, chsParseParticipantChunk chunk = some p → p.stud = "" := by
  intro chunk p h
  cases chunk with
  | nil => simp [chsParseParticipantChunk] at h
  | cons l0 rest =>
    simp only [chsParseParticipantChunk] at h
    cases e : chsPartStartMatch (pyStrip l0.data) with
    | none => rw [e] at h; simp at h
    | some g =>
      obtain ⟨nro, g2, g3, g4⟩ := g
      rw [e] at h
      simp only [Option.some.injEq] at h
      subst h
      rfl

/-- C10 witness: a concrete CHS chunk parses and its stud is `""`. -/
theorem c10_chs_stud_witness :
    ((chsParseParticipantChunk ["3 SASSI - Constitution 57", "J. Rider - T. Coach"]).map
      (fun p => p.stud)) = some "" := by
  cases e : chsParseParticipantChunk ["3 SASSI - Constitution 57", "J. Rider - T. Coach"] with
  | none => exact absurd e (by decide)
  | some p => simp [c10_chs_stud_always_empty _ p e]

/-- C6 counterexample: the month table has exactly 12 entries whose month
values are pairwise distinct — one spelling per month, so it contains *no*
alternate spelling for any month — and the common alternate spelling
`Setiembre` indeed fails to convert. -/
theorem c6_no_alternate_spelling_counterexample :
    mesesTable.length = 12 ∧
    (List.Pairwise (fun a b => a.2 ≠ b.2) mesesTable) ∧
    hchParseFechaToIso "Viernes 21 de Setiembre de 2025" = none := by
  exact ⟨rfl, by decide, rfl⟩

/-- C6 amended: conversion goes through the fixed case-insensitive 12-entry
month table (one spelling per month, no alternates) and fails closed, for
both dialects: no recognised date text, or a month word outside the table,
leaves the date `None`; and a header window without date text leaves the
parsed header's date `None`. -/
theorem c6_fails_closed_amended :
    (∀ t : String, hchInnerDateSearch t.data = none → hchParseFechaToIso t = none) ∧
    (∀ (t : String) d m y, hchInnerDateSearch t.data = some (d, m, y) →
      List.lookup (String.mk (m.map pyLowerChar)) mesesTable = none →
      hchParseFechaToIso t = none) ∧
    (∀ (t : String) d m y, hchParseFechaToIso t = none →
      chsInnerDateSearch t.data = some (d, m, y) →
      List.lookup (String.mk (m.map pyLowerChar)) mesesTable = none →
      chsParseFechaToIso t = none) ∧
    (∀ (lines : List String) (s e : Nat),
      hchDateSearch (String.intercalate "\n" ((lines.drop s).take (e - s))).data = none →
      (hchParseHeader lines s e).2 = none) := by
  refine ⟨?_, ?_, ?_, ?_⟩
  · intro t h
    simp only [hchParseFechaToIso, h]
    split <;> rfl
  · intro t d m y h hl
    simp only [hchParseFechaToIso, h, hl]
    split <;> rfl
  · intro t d m y h1 h2 hl
    simp only [chsParseFechaToIso, h1, h2, hl]
    split <;> rfl
  · intro lines s e h
    simp only [hchParseHeader, h, Option.none_bind]

/-- C6 witness: `Setiembre` is recognised date text whose month word is not
in the table, and both dialects leave the date `None` on it. -/
theorem c6_fails_closed_witness :
    hchInnerDateSearch "Viernes 21 de Setiembre de 2025".data =
      some ("21".data, "Setiembre".data, "2025".data) ∧
    List.lookup "setiembre" mesesTable = none ∧
    hchParseFechaToIso "Viernes 21 de Setiembre de 2025" = none := by
  refine ⟨by decide, rfl, ?_⟩
  exact c6_fails_closed_amended.2.1 "Viernes 21 de Setiembre de 2025"
    "21".data "Setiembre".data "2025".data (by decide) rfl

/-- C8: when a series ordinal matches in the type-stripped header remainder,
the `serie` value is kept only for HANDICAP (empty otherwise), while the
matched ordinal text is removed from the remainder — which the block parser
turns into the free-text condition — for every race type. -/
theorem c8_serie_gated_removal_unconditional :
    ∀ resto g0 g1, hchSerieOrdinalSearch (hchTipoRest resto) = some (g0, g1) →
      hchSerieOf resto = (if hchTipoOf resto = "HANDICAP".data then g1 else []) ∧
      hchAfterSerie resto = pyStrip (pyReplace (pyStrip g0) [] (hchTipoRest resto)) ∧
      (hchTipoOf resto ≠ "HANDICAP".data →
        hchCondicionOf resto = pyStrip (pyReplace (pyStrip g0) [] (hchTipoRest resto))) := by
  intro resto g0 g1 h
  refine ⟨?_, ?_, ?_⟩
  · simp only [hchSerieOf, h]
  · simp only [hchAfterSerie, h]
  · intro hne
    unfold hchCondicionOf
    rw [if_neg hne]
    simp only [hchAfterSerie, h]

/-- The C8 witness header remainder: a non-HANDICAP type with an ordinal. -/
def c8Resto : List Char :=
  "CONDICIONAL 3ra. Serie para caballos".data

/-- C8 witness: on the concrete remainder the ordinal matches, the type is
CONDICIONAL, the serie stays empty, and the ordinal text is still removed
from the condition. -/
theorem c8_serie_witness :
    hchSerieOrdinalSearch (hchTipoRest c8Resto) =
      some ("3ra. Serie".data, "3".data) ∧
    hchTipoOf c8Resto = "CONDICIONAL".data ∧
    hchSerieOf c8Resto = [] ∧
    hchCondicionOf c8Resto = "para caballos".data := by
  have h := c8_serie_gated_removal_unconditional c8Resto "3ra. Serie".data "3".data
    (by decide)
  refine ⟨by decide, by decide, ?_, ?_⟩
  · rw [h.1]; decide
  · rw [h.2.2 (by decide)]; decide

/-- C9: the header search window.  With markers `m0 :: rest` the window is
`[m0 - 100, min len (endLine + 50))` where `endLine` is the second marker's
index when present and the document length otherwise (`m0 - 100` is
Python's `max(0, start_line - 100)` as truncated subtraction); meeting
number and date both come from that window, so with two markers the header
may be captured from lines of the second meeting. -/
theorem c9_header_window :
    ∀ (lines : List String) m0 rest,
      hchFindMeetingMarkers lines = m0 :: rest →
      (hchExtractMeeting lines).nro_reunion =
        pyStrOfOptNat
          (hchParseHeader lines (m0.1 - 100)
            (min lines.length
              ((match rest with
                | m1 :: _ => m1.1
                | [] => lines.length) + 50))).1 ∧
      (hchExtractMeeting lines).fecha =
        (hchParseHeader lines (m0.1 - 100)
          (min lines.length
            ((match rest with
              | m1 :: _ => m1.1
              | [] => lines.length) + 50))).2 := by
  intro lines m0 rest h
  cases rest with
  | nil => simp only [hchExtractMeeting, hchEndLine, h]; exact ⟨rfl, rfl⟩
  | cons m1 rest2 => simp only [hchExtractMeeting, hchEndLine, h]; exact ⟨rfl, rfl⟩

/-- The C9 witness document: two date markers, with the only `REUNION` line
after the second marker (inside its 50-line lookahead). -/
def c9Lines : List String :=
  ["Viernes 21 de Noviembre de 2025", "x",
   "Sabado 22 de Noviembre de 2025", "REUNION No 7"]

/-- C9 witness: the markers sit at lines 0 and 2, and the meeting number is
captured from the line after the second marker. -/
theorem c9_window_witness :
    (hchFindMeetingMarkers c9Lines).map (fun m => m.1) = [0, 2] ∧
    (hchExtractMeeting c9Lines).nro_reunion = "7" := by
  have h := c9_header_window c9Lines
    (0, some "Viernes 21 de Noviembre de 2025")
    [(2, some "Sabado 22 de Noviembre de 2025")] (by decide)
  refine ⟨by decide, ?_⟩
  rw [h.1]; decide

/-- Lexicographic comparison of code-point lists is total. -/
theorem lexLe_total : ∀ a b : List Char, lexLe a b = true ∨ lexLe b a = true := by
  intro a
  induction a with
  | nil => intro b; left; rfl
  | cons x xs ih =>
    intro b
    cases b with
    | nil => right; rfl
    | cons y ys =>
      simp only [lexLe]
      by_cases h1 : x < y
      · left; rw [if_pos h1]
      · by_cases h2 : y < x
        · right; rw [if_pos h2]
        · rw [if_neg h1, if_neg h2, if_neg h2, if_neg h1]
          exact ih ys

/-- The sort key comparison is total. -/
theorem horaLe_total (x y : Race) : horaLe x y = true ∨ horaLe y x = true :=
  lexLe_total x.hora.data y.hora.data

/-- Stable insertion preserves adjacent `hora` ordering. -/
theorem chain'_insRace (x : Race) :
    ∀ l, l.Chain' (fun a b => horaLe a b = true) →
      (insRace x l).Chain' (fun a b => horaLe a b = true) := by
  intro l
  induction l with
  | nil => intro _; simp [insRace]
  | cons y ys ih =>
    intro h
    simp only [insRace]
    by_cases hyx : horaLe y x = true
    · rw [if_pos hyx]
      cases ys with
      | nil => simp [insRace, List.chain'_cons, hyx]
      | cons z zs =>
        have hyz : horaLe y z = true := (List.chain'_cons.mp h).1
        have hch := (List.chain'_cons.mp h).2
        have hi := ih hch
        simp only [insRace] at hi ⊢
        by_cases hzx : horaLe z x = true
        · rw [if_pos hzx] at hi ⊢
          exact List.chain'_cons.mpr ⟨hyz, hi⟩
        · rw [if_neg hzx] at hi ⊢
          exact List.chain'_cons.mpr ⟨hyx, hi⟩
    · rw [if_neg hyx]
      have hxy : horaLe x y = true := by
        rcases horaLe_total x y with h1 | h2
        · exact h1
        · exact absurd h2 hyx
      exact List.chain'_cons.mpr ⟨hxy, h⟩

/-- The insertion fold keeps the accumulator sorted. -/
theorem chain'_insFold :
    ∀ (l acc : List Race), acc.Chain' (fun a b => horaLe a b = true) →
      (List.foldl (fun a x => insRace x a) acc l).Chain'
        (fun a b => horaLe a b = true) := by
  intro l
  induction l with
  | nil => intro acc h; exact h
  | cons x xs ih => intro acc h; exact ih _ (chain'_insRace x acc h)

/-- `sortRaces` output is sorted by `hora` (adjacent pairs). -/
theorem chain'_sortRaces (l : List Race) :
    (sortRaces l).Chain' (fun a b => horaLe a b = true) :=
  chain'_insFold l [] (by simp)

/-- Attaching leading participants only rewrites the head's participant
list, so `hora` ordering is preserved. -/
theorem chain'_attach (ps : List Participant) :
    ∀ l, l.Chain' (fun a b => horaLe a b = true) →
      (hchAttachLeading ps l).Chain' (fun a b => horaLe a b = true) := by
  intro l h
  match ps, l with
  | [], l => exact h
  | p :: ps2, [] => exact h
  | p :: ps2, [c] => simp [hchAttachLeading]
  | p :: ps2, c :: z :: zs =>
    show List.Chain' _ ({ c with participantes := p :: ps2 } :: z :: zs)
    rw [List.chain'_cons] at h ⊢
    exact ⟨h.1, h.2⟩

/-- Renumbering rewrites only `nro_carrera`, preserving `hora` ordering. -/
theorem chain'_renumber :
    ∀ (l : List Race) k, l.Chain' (fun a b => horaLe a b = true) →
      (renumberRaces k l).Chain' (fun a b => horaLe a b = true) := by
  intro l
  induction l with
  | nil => intro k _; simp [renumberRaces]
  | cons r rest ih =>
    intro k h
    cases rest with
    | nil => simp [renumberRaces]
    | cons r2 rest2 =>
      rw [List.chain'_cons] at h
      have ht := ih (k + 1) h.2
      show List.Chain' _ ({ r with nro_carrera := toString k } ::
        renumberRaces (k + 1) (r2 :: rest2))
      exact List.chain'_cons.mpr ⟨h.1, ht⟩

/-- The race at 0-based position `i` after renumbering from `k` carries
number `str(k + i)`. -/
theorem renumber_get? :
    ∀ (l : List Race) k i r, (renumberRaces k l).get? i = some r →
      r.nro_carrera = toString (k + i) := by
  intro l
  induction l with
  | nil => intro k i r h; simp [renumberRaces] at h
  | cons x xs ih =>
    intro k i r h
    cases i with
    | zero =>
      simp only [renumberRaces, List.get?] at h
      rw [← Option.some.injEq] at h
      simp only [Option.some.injEq] at h
      rw [← h]
      simp
    | succ j =>
      have hj : (renumberRaces (k + 1) xs).get? j = some r := by
        simpa [renumberRaces] using h
      rw [ih (k + 1) j r hj]
      congr 1
      omega

/-- C3 amended: the returned races are ordered by the `hora` *string*
ascending — lexicographic order on code points, the order Python's
`sort(key=…x.hora)` uses, which agrees with time-of-day order only when all
hours have the same digit width — and the race number at 0-based index `i`
in that final order is always `str(i + 1)`, regardless of document order or
source numbering. -/
theorem c3_sorted_and_renumbered_amended (lines : List String) :
    (hchExtractMeeting lines).carreras.Chain' (fun a b => horaLe a b = true) ∧
    ∀ i r, (hchExtractMeeting lines).carreras.get? i = some r →
      r.nro_carrera = toString (i + 1) := by
  constructor
  · exact chain'_renumber _ 1 (chain'_attach _ _ (chain'_sortRaces _))
  · intro i r h
    have hr := renumber_get? _ 1 i r h
    rw [hr]
    congr 1
    omega

/-- One-race document used by the C3 witness. -/
def c3WitnessLines : List String := ["10:30 aprox. 1000 Mts. (5) Z"]

/-- C3 witness: on a concrete document the renumbering conclusion holds at
index 0 and the output is `hora`-sorted. -/
theorem c3_sorted_witness :
    ((hchExtractMeeting c3WitnessLines).carreras.get? 0).map
      (fun r => r.nro_carrera) = some "1" ∧
    (hchExtractMeeting c3WitnessLines).carreras.Chain'
      (fun a b => horaLe a b = true) := by
  refine ⟨?_, (c3_sorted_and_renumbered_amended c3WitnessLines).1⟩
  cases e : (hchExtractMeeting c3WitnessLines).carreras.get? 0 with
  | none => exact absurd e (by decide)
  | some r =>
    have h := (c3_sorted_and_renumbered_amended c3WitnessLines).2 0 r e
    rw [show Option.map (fun r => r.nro_carrera) (some r) = some r.nro_carrera from rfl, h]
    rfl

/-- Case analysis of the VSC lookback: either no `Opción` line sits in the
3-line window (boundary unchanged) or the boundary moves to the *nearest*
`Opción` line, with no `Opción` line strictly between it and the header. -/
theorem vscAdjust_spec (lines : List String) (i : Nat) :
    (vscAdjust lines i = i ∧
      ∀ p, p < i → i ≤ p + 3 → vscOpcAt lines p = false) ∨
    (vscAdjust lines i < i ∧ i ≤ vscAdjust lines i + 3 ∧
      vscOpcAt lines (vscAdjust lines i) = true ∧
      ∀ p, vscAdjust lines i < p → p < i → vscOpcAt lines p = false) := by
  unfold vscAdjust
  split
  case isTrue h1 =>
    simp only [Bool.and_eq_true, decide_eq_true_eq] at h1
    right
    refine ⟨by omega, by omega, h1.2, ?_⟩
    intro p hp1 hp2
    omega
  case isFalse h1 =>
    simp only [Bool.and_eq_true, decide_eq_true_eq, not_and] at h1
    split
    case isTrue h2 =>
      simp only [Bool.and_eq_true, decide_eq_true_eq] at h2
      right
      refine ⟨by omega, by omega, h2.2, ?_⟩
      intro p hp1 hp2
      have hp : p = i - 1 := by omega
      subst hp
      exact Bool.not_eq_true _ |>.mp (h1 (by omega))
    case isFalse h2 =>
      simp only [Bool.and_eq_true, decide_eq_true_eq, not_and] at h2
      split
      case isTrue h3 =>
        simp only [Bool.and_eq_true, decide_eq_true_eq] at h3
        right
        refine ⟨by omega, by omega, h3.2, ?_⟩
        intro p hp1 hp2
        rcases (by omega : (p = i - 1 ∧ 1 ≤ i) ∨ (p = i - 2 ∧ 2 ≤ i)) with
          ⟨hp, hi⟩ | ⟨hp, hi⟩ <;> subst hp
        · exact Bool.not_eq_true _ |>.mp (h1 hi)
        · exact Bool.not_eq_true _ |>.mp (h2 hi)
      case isFalse h3 =>
        simp only [Bool.and_eq_true, decide_eq_true_eq, not_and] at h3
        left
        refine ⟨rfl, ?_⟩
        intro p hp1 hp2
        rcases (by omega :
            (p = i - 1 ∧ 1 ≤ i) ∨ (p = i - 2 ∧ 2 ≤ i) ∨ (p = i - 3 ∧ 3 ≤ i)) with
          ⟨hp, hi⟩ | ⟨hp, hi⟩ | ⟨hp, hi⟩ <;> subst hp
        · exact Bool.not_eq_true _ |>.mp (h1 hi)
        · exact Bool.not_eq_true _ |>.mp (h2 hi)
        · exact Bool.not_eq_true _ |>.mp (h3 hi)

/-- The adjusted boundary never moves forward. -/
theorem vscAdjust_le (lines : List String) (i : Nat) : vscAdjust lines i ≤ i := by
  rcases vscAdjust_spec lines i with ⟨h, _⟩ | ⟨h, _⟩ <;> omega

/-- The adjusted boundary moves at most 3 lines back. -/
theorem vscAdjust_ge (lines : List String) (i : Nat) :
    i - 3 ≤ vscAdjust lines i := by
  rcases vscAdjust_spec lines i with ⟨h, _⟩ | ⟨_, h, _⟩ <;> omega

/-- Adjusted boundaries of header lines in document order never invert. -/
theorem vscAdjust_mono (lines : List String) :
    ∀ i j, i < j → vscAdjust lines i ≤ vscAdjust lines j := by
  intro i j hij
  by_contra hlt
  have h : vscAdjust lines j < vscAdjust lines i := by omega
  have hile := vscAdjust_le lines i
  rcases vscAdjust_spec lines j with ⟨hjeq, _⟩ | ⟨hjlt, hjge, hjopc, hjbet⟩
  · omega
  · rcases vscAdjust_spec lines i with ⟨hieq, hino⟩ | ⟨hilt, _, hiopc, _⟩
    · have hzero := hino (vscAdjust lines j) (by omega) (by omega)
      rw [hzero] at hjopc
      exact Bool.false_ne_true hjopc
    · have hzero := hjbet (vscAdjust lines i) h (by omega)
      rw [hzero] at hiopc
      exact Bool.false_ne_true hiopc

/-- C7 amended: a dialect's Race Segmenter produces exactly one boundary
per line matching its race-header pattern.  For HCH the boundaries are the
matching line indices themselves and are strictly increasing; for VSC each
boundary is the header index adjusted at most 3 lines backward to absorb an
`Opción` label line, and the boundary sequence is only *non-decreasing* —
two consecutive headers can be assigned the same boundary when one
`Opción` line serves both. -/
theorem c7_boundaries_amended (lines : List String) :
    (hchHdrIdxs lines).Pairwise (· < ·) ∧
    (∀ i, i ∈ hchHdrIdxs lines ↔
      (i < lines.length ∧
        (hchRaceHeaderSearch (lines.getD i "").data).isSome = true)) ∧
    vscIdxs lines = (hchHdrIdxs lines).map (fun i => vscAdjust lines i) ∧
    (vscIdxs lines).Pairwise (· ≤ ·) ∧
    (∀ i, i ∈ hchHdrIdxs lines →
      i - 3 ≤ vscAdjust lines i ∧ vscAdjust lines i ≤ i) := by
  refine ⟨?_, ?_, rfl, ?_, ?_⟩
  · exact (List.pairwise_lt_range _).sublist (List.filter_sublist _)
  · intro i
    unfold hchHdrIdxs
    rw [List.mem_filter, List.mem_range]
  · have hp : (hchHdrIdxs lines).Pairwise (· < ·) :=
      (List.pairwise_lt_range _).sublist (List.filter_sublist _)
    exact List.Pairwise.map _ (fun a b hab => vscAdjust_mono lines a b hab) hp
  · intro i _
    exact ⟨vscAdjust_ge lines i, vscAdjust_le lines i⟩

/-- VSC document whose two headers share one preceding `Opción` line
(claim C7). -/
def c7Lines : List String :=
  ["Opción 1", "12:00 aprox. 1000 Mts. (1) x", "13:00 aprox. 1000 Mts. (2) y"]

/-- C7 counterexample: the VSC segmenter assigns both headers (lines 1 and
2) the same adjusted boundary 0 — the boundary sequence `[0, 0]` is not
strictly increasing. -/
theorem c7_duplicate_boundary_counterexample :
    vscIdxs c7Lines = [0, 0] ∧ ¬ (([0, 0] : List Nat).Pairwise (· < ·)) := by
  exact ⟨by decide, by simp⟩

/-- C7 witness: line 1 of the concrete document is a header boundary whose
adjusted index obeys the 3-line-lookback bounds of the amended claim. -/
theorem c7_boundaries_witness :
    (1 ∈ hchHdrIdxs c7Lines) ∧ vscAdjust c7Lines 1 = 0 ∧
    (1 : Nat) - 3 ≤ vscAdjust c7Lines 1 ∧ vscAdjust c7Lines 1 ≤ 1 := by
  have h := (c7_boundaries_amended c7Lines).2.2.2.2 1 (by decide)
  exact ⟨by decide, by decide, h.1, h.2⟩

/-! ### C2: only the leading block can be header-less -/

/-- Boundary indices are strictly increasing (they filter `List.range`). -/
theorem hchHdrIdxs_pairwise (lines : List String) :
    (hchHdrIdxs lines).Pairwise (· < ·) :=
  (List.pairwise_lt_range _).sublist (List.filter_sublist _)

/-- Every boundary index is in range and its line matches the pattern. -/
theorem hchHdrIdxs_mem {lines : List String} {i : Nat}
    (h : i ∈ hchHdrIdxs lines) :
    i < lines.length ∧ (hchRaceHeaderSearch (lines.getD i "").data).isSome = true := by
  unfold hchHdrIdxs at h
  rw [List.mem_filter, List.mem_range] at h
  exact h

/-- No line before the first boundary matches the pattern. -/
theorem hchHdrIdxs_head_min {lines : List String} {j : Nat} {rest : List Nat}
    (h : hchHdrIdxs lines = j :: rest) :
    ∀ i, i < j → i < lines.length →
      (hchRaceHeaderSearch (lines.getD i "").data).isSome = false := by
  intro i hij hilen
  by_contra hne
  have hi : (hchRaceHeaderSearch (lines.getD i "").data).isSome = true := by
    cases e : (hchRaceHeaderSearch (lines.getD i "").data).isSome
    · exact absurd e hne
    · rfl
  have hmem : i ∈ hchHdrIdxs lines := by
    unfold hchHdrIdxs
    rw [List.mem_filter, List.mem_range]
    exact ⟨hilen, hi⟩
  rw [h] at hmem
  have hpw := hchHdrIdxs_pairwise lines
  rw [h, List.pairwise_cons] at hpw
  cases hmem with
  | head => omega
  | tail _ hmem2 => exact absurd (hpw.1 i hmem2) (by omega)

/-- Head of a `drop` inside the list. -/
theorem head?_drop_getD (l : List String) :
    ∀ n, n < l.length → (l.drop n).head? = some (l.getD n "") := by
  induction l with
  | nil => intro n h; simp at h
  | cons x t ih =>
    intro n h
    cases n with
    | zero => rfl
    | succ m => exact ih m (by simpa using h)

/-- A positive `take` keeps the head. -/
theorem head?_take_pos (l : List String) (k : Nat) (h : 0 < k) :
    (l.take k).head? = l.head? := by
  cases l with
  | nil => simp
  | cons x t =>
    cases k with
    | zero => omega
    | succ m => rfl

/-- Every boundary block of `blocksOfIdxs` starts with its boundary line. -/
theorem blocksOfIdxs_head {lines : List String} :
    ∀ (idxs : List Nat), idxs.Pairwise (· < ·) →
      (∀ x ∈ idxs, x < lines.length) →
      ∀ s blk, (s, blk) ∈ blocksOfIdxs lines idxs →
        s ∈ idxs ∧ blk.head? = some (lines.getD s "") := by
  intro idxs
  induction idxs with
  | nil => intro _ _ s blk h; simp [blocksOfIdxs] at h
  | cons s0 rest ih =>
    intro hpw hlen s blk h
    cases rest with
    | nil =>
      simp only [blocksOfIdxs, List.mem_singleton] at h
      have he : s = s0 ∧ blk = lines.drop s0 := by
        have := Prod.mk.injEq s blk s0 (lines.drop s0) ▸ h
        exact Prod.mk.inj h
      obtain ⟨h1, h2⟩ := he
      subst h1; subst h2
      exact ⟨List.mem_singleton.mpr rfl,
        head?_drop_getD lines s (hlen s (List.mem_singleton.mpr rfl))⟩
    | cons s1 rest2 =>
      simp only [blocksOfIdxs, List.mem_cons] at h
      cases h with
      | inl he =>
        obtain ⟨h1, h2⟩ := Prod.mk.inj he
        subst h1; subst h2
        have hs01 : s < s1 := by
          rw [List.pairwise_cons] at hpw
          exact hpw.1 s1 (List.mem_cons_self s1 rest2)
        have hslen : s < lines.length := hlen s (List.mem_cons_self s _)
        refine ⟨List.mem_cons_self s _, ?_⟩
        rw [head?_take_pos _ _ (by omega)]
        exact head?_drop_getD lines s hslen
      | inr hmem =>
        have hpw2 : (s1 :: rest2).Pairwise (· < ·) :=
          (List.pairwise_cons.mp hpw).2
        have hlen2 : ∀ x ∈ s1 :: rest2, x < lines.length :=
          fun x hx => hlen x (List.mem_cons_of_mem s0 hx)
        have := ih hpw2 hlen2 s blk hmem
        exact ⟨List.mem_cons_of_mem s0 this.1, this.2⟩

/-- A block whose first line matches `R_RACE_HEADER` always yields a race:
the defensive scan finds the header at index 0 and every later step of the
block parser is total. -/
theorem hchParseRaceBlock_isSome {blk : List String} {l : String}
    (hh : blk.head? = some l)
    (hm : (hchRaceHeaderSearch l.data).isSome = true) :
    (hchParseRaceBlock blk).isSome = true := by
  cases blk with
  | nil => simp at hh
  | cons l0 t =>
    have hl : l0 = l := by simpa using hh
    subst hl
    have hfind : hchFindHdrIdx (l0 :: t) = some 0 := by
      unfold hchFindHdrIdx
      have hmin : min 5 (l0 :: t).length = (min 4 t.length) + 1 := by
        simp [List.length_cons]
        omega
      rw [hmin, List.range_succ_eq_map]
      exact List.find?_cons_of_pos _ (by simpa using hm)
    obtain ⟨g, hg⟩ := Option.isSome_iff_exists.mp hm
    obtain ⟨hora, dist, cod, resto⟩ := g
    simp only [hchParseRaceBlock, hfind, List.getD_cons_zero, hg, Option.isSome_some]

/-- The leading block (lines before a positive first boundary) never
parses: none of its first lines matches the pattern. -/
theorem hchParseRaceBlock_take_none {lines : List String} {j : Nat}
    {rest : List Nat} (h : hchHdrIdxs lines = j :: rest) :
    hchParseRaceBlock (lines.take j) = none := by
  have hjlen : j < lines.length :=
    (hchHdrIdxs_mem (h ▸ List.mem_cons_self j rest)).1
  have hfind : hchFindHdrIdx (lines.take j) = none := by
    unfold hchFindHdrIdx
    rw [List.find?_eq_none]
    intro i hi
    rw [List.mem_range] at hi
    have hij : i < j := by
      have : (lines.take j).length = j := by
        rw [List.length_take]
        omega
      omega
    have hgd : (lines.take j).getD i "" = lines.getD i "" := by
      simp [List.getD, List.getElem?_take, hij]
    rw [hgd]
    rw [hchHdrIdxs_head_min h i hij (by omega)]
    simp
  unfold hchParseRaceBlock
  rw [hfind]

/-- The candidate leading participants of the C2 edge case: the chunks of
the lines before the first boundary, when that boundary is positive. -/
def hchLeadingParts (lines : List String) : List Participant :=
  match hchHdrIdxs lines with
  | j :: _ =>
    if 0 < j then
      (gatherChunks hchIsPartStartPair (lines.take j)).filterMap
        (fun chunk => hchParseParticipantChunk chunk)
    else []
  | [] => []

/-- With a zero window the block loop contributes nothing. -/
theorem hchBlocksLoop_zero : ∀ bs, hchBlocksLoop 0 bs = ([], []) := by
  intro bs
  induction bs with
  | nil => rfl
  | cons b rest ih =>
    obtain ⟨s, blk⟩ := b
    simp only [hchBlocksLoop, ih]
    rw [if_neg (Nat.not_lt_zero s)]

/-- Blocks that all parse leave the leading-participants accumulator
empty. -/
theorem hchBlocksLoop_all_some {e : Nat} :
    ∀ bs : List (Nat × List String),
      (∀ s blk, (s, blk) ∈ bs → (hchParseRaceBlock blk).isSome = true) →
      (hchBlocksLoop e bs).2 = [] := by
  intro bs
  induction bs with
  | nil => intro _; rfl
  | cons b rest ih =>
    intro hall
    obtain ⟨s, blk⟩ := b
    have hrest := ih (fun s2 blk2 hm => hall s2 blk2 (List.mem_cons_of_mem _ hm))
    have hsome := hall s blk (List.mem_cons_self _ _)
    obtain ⟨r, hr⟩ := Option.isSome_iff_exists.mp hsome
    simp only [hchBlocksLoop, hr]
    split
    · exact hrest
    · exact hrest

/-- A processed leading block that fails to parse contributes its chunks as
the leading participants (nothing later overwrites them when every other
block parses). -/
theorem hchBlocksLoop_lead (e : Nat) (blk : List String)
    (bs : List (Nat × List String)) (he : 0 < e)
    (hp : hchParseRaceBlock blk = none)
    (hbs : (hchBlocksLoop e bs).2 = []) :
    (hchBlocksLoop e ((0, blk) :: bs)).2 =
      (gatherChunks hchIsPartStartPair blk).filterMap
        (fun chunk => hchParseParticipantChunk chunk) := by
  rcases ht : hchBlocksLoop e bs with ⟨rs, ps⟩
  have hps : ps = [] := by rw [ht] at hbs; exact hbs
  subst hps
  simp only [hchBlocksLoop, ht, if_pos he, hp]
  cases hP : ((gatherChunks hchIsPartStartPair blk).filterMap
      (fun chunk => hchParseParticipantChunk chunk)) with
  | nil => simp
  | cons p ps2 => simp

/-- C2: a block whose header cannot be matched contributes zero races, and
it can only be the leading block (every non-leading block of the segmenter
starts with a line that matches the race-header pattern, and then always
parses); when the leading block's participant chunks are nonempty they are
attached — after sorting and before renumbering — as the first race's
participants. -/
theorem c2_headerless_blocks (lines : List String) :
    (∀ s blk, (s, blk) ∈ hchSplitRaces lines → hchParseRaceBlock blk = none →
      s = 0 ∧ ∃ j rest, hchHdrIdxs lines = j :: rest ∧ 0 < j ∧
        blk = lines.take j) ∧
    (∀ c cs, hchLeadingParts lines ≠ [] →
      (hchExtractMeeting lines).carreras = c :: cs →
      c.participantes = hchLeadingParts lines) := by
  constructor
  · intro s blk hmem hnone
    cases hidx : hchHdrIdxs lines with
    | nil =>
      rw [show hchSplitRaces lines = [] from by
        unfold hchSplitRaces; rw [hidx]; rfl] at hmem
      simp at hmem
    | cons j rest =>
      have hpw := hchHdrIdxs_pairwise lines
      rw [hidx] at hpw
      have hlen : ∀ x ∈ j :: rest, x < lines.length := by
        intro x hx
        exact (hchHdrIdxs_mem (hidx ▸ hx)).1
      have hsome : ∀ x ∈ j :: rest,
          (hchRaceHeaderSearch (lines.getD x "").data).isSome = true := by
        intro x hx
        exact (hchHdrIdxs_mem (hidx ▸ hx)).2
      have hmains : ∀ s2 blk2, (s2, blk2) ∈ blocksOfIdxs lines (j :: rest) →
          (hchParseRaceBlock blk2).isSome = true := by
        intro s2 blk2 hm2
        obtain ⟨hs2, hh2⟩ := blocksOfIdxs_head (j :: rest) hpw hlen s2 blk2 hm2
        exact hchParseRaceBlock_isSome hh2 (hsome s2 hs2)
      have hsplit : hchSplitRaces lines =
          (if 0 < j then (0, lines.take j) :: blocksOfIdxs lines (j :: rest)
           else blocksOfIdxs lines (j :: rest)) := by
        unfold hchSplitRaces; rw [hidx]; rfl
      rw [hsplit] at hmem
      by_cases hj : 0 < j
      · rw [if_pos hj] at hmem
        rcases List.mem_cons.mp hmem with he | hm2
        · obtain ⟨h1, h2⟩ := Prod.mk.inj he
          subst h1; subst h2
          exact ⟨rfl, j, rest, rfl, hj, rfl⟩
        · have := hmains s blk hm2
          rw [hnone] at this
          simp at this
      · rw [if_neg hj] at hmem
        have := hmains s blk hmem
        rw [hnone] at this
        simp at this
  · intro c cs hne hcar
    cases hidx : hchHdrIdxs lines with
    | nil =>
      unfold hchLeadingParts at hne
      simp [hidx] at hne
    | cons j rest =>
      by_cases hj : 0 < j
      case neg =>
        unfold hchLeadingParts at hne
        simp [hidx, hj] at hne
      case pos =>
      have hpw := hchHdrIdxs_pairwise lines
      rw [hidx] at hpw
      have hlen : ∀ x ∈ j :: rest, x < lines.length := by
        intro x hx
        exact (hchHdrIdxs_mem (hidx ▸ hx)).1
      have hsome : ∀ x ∈ j :: rest,
          (hchRaceHeaderSearch (lines.getD x "").data).isSome = true := by
        intro x hx
        exact (hchHdrIdxs_mem (hidx ▸ hx)).2
      have hmains : ∀ s2 blk2, (s2, blk2) ∈ blocksOfIdxs lines (j :: rest) →
          (hchParseRaceBlock blk2).isSome = true := by
        intro s2 blk2 hm2
        obtain ⟨hs2, hh2⟩ := blocksOfIdxs_head (j :: rest) hpw hlen s2 blk2 hm2
        exact hchParseRaceBlock_isSome hh2 (hsome s2 hs2)
      have hsplit : hchSplitRaces lines =
          (0, lines.take j) :: blocksOfIdxs lines (j :: rest) := by
        unfold hchSplitRaces
        rw [hidx]
        simp [hj]
      rcases Nat.eq_zero_or_pos (hchEndLine lines) with he0 | hepos
      · have hc : (hchExtractMeeting lines).carreras =
            renumberRaces 1 (hchAttachLeading
              (hchBlocksLoop (hchEndLine lines) (hchSplitRaces lines)).2
              (sortRaces
                (hchBlocksLoop (hchEndLine lines) (hchSplitRaces lines)).1)) := rfl
        rw [hc, he0, hchBlocksLoop_zero] at hcar
        simp [hchAttachLeading, sortRaces, renumberRaces] at hcar
      · have hmains0 :
            (hchBlocksLoop (hchEndLine lines)
              (blocksOfIdxs lines (j :: rest))).2 = [] :=
          hchBlocksLoop_all_some _ hmains
        have hlp : hchLeadingParts lines =
            (gatherChunks hchIsPartStartPair (lines.take j)).filterMap
              (fun chunk => hchParseParticipantChunk chunk) := by
          unfold hchLeadingParts
          simp [hidx, hj]
        have hloop2 : (hchBlocksLoop (hchEndLine lines)
            (hchSplitRaces lines)).2 = hchLeadingParts lines := by
          rw [hsplit, hlp]
          exact hchBlocksLoop_lead _ _ _ hepos
            (hchParseRaceBlock_take_none hidx) hmains0
        have hc : (hchExtractMeeting lines).carreras =
            renumberRaces 1 (hchAttachLeading
              (hchBlocksLoop (hchEndLine lines) (hchSplitRaces lines)).2
              (sortRaces
                (hchBlocksLoop (hchEndLine lines) (hchSplitRaces lines)).1)) := rfl
        rw [hc, hloop2] at hcar
        rcases hLP : hchLeadingParts lines with _ | ⟨p, ps2⟩
        · exact absurd hLP hne
        · rw [hLP] at hcar
          rcases hsort : sortRaces
              (hchBlocksLoop (hchEndLine lines) (hchSplitRaces lines)).1 with
            _ | ⟨c0, cs0⟩
          · rw [hsort] at hcar
            simp [hchAttachLeading, renumberRaces] at hcar
          · rw [hsort] at hcar
            simp only [hchAttachLeading, renumberRaces] at hcar
            injection hcar with hc1 hc2
            subst hc1
            rfl

/-- C2 witness document: a participant table ahead of its race header. -/
def c2WitnessLines : List String :=
  ["1 AAA - Sire 55", "B. Jockey - C. Trainer",
   "14:00 aprox. 1000 Mts. (1) COND X"]

/-- C2 witness: the pre-header chunk parses to a participant, and the
single extracted race carries exactly the leading participants. -/
theorem c2_leading_attach_witness :
    hchLeadingParts c2WitnessLines ≠ [] ∧
    ((hchExtractMeeting c2WitnessLines).carreras.map
      (fun r => r.participantes)) = [hchLeadingParts c2WitnessLines] := by
  refine ⟨by decide, ?_⟩
  cases e : (hchExtractMeeting c2WitnessLines).carreras with
  | nil => exact absurd e (by decide)
  | cons c cs =>
    have h := (c2_headerless_blocks c2WitnessLines).2 c cs (by decide) e
    have hlen : ((hchExtractMeeting c2WitnessLines).carreras).length = 1 := by decide
    rw [e] at hlen
    simp only [List.length_cons] at hlen
    have hcs : cs = [] := List.length_eq_zero.mp (by omega)
    subst hcs
    simp [h]
